import Mathlib

/-!
# Verification of the TotalDepth RP66V1 XML index codec

A shallow embedding of `TotalDepth/RP66V1/IndexXML.py` and
`TotalDepth/RP66V1/core/LogPassXML.py`: the RLE engine, the XML index
serialization/deserialization functions, and their validation checks.
XML elements are modelled as trees of tag/attribute/children; attribute
values are strings, and the Python `int(...)` / f-string formatting used
by the code is modelled character-for-character for the integer fragment
(float-valued attributes are outside this model).
-/

/-! ## Decimal and hexadecimal attribute formatting and parsing

Models Python `f-string` integer formatting (`str(v)`, `f'0x.vx.'`) and
`int(s)` / `int(s, 16)` parsing on the integer fragment. -/

/-- Big-endian base-`b` digits of `n`, with `fuel` bounding the recursion;
empty for `n = 0`. -/
def digitsAux (b : Nat) : Nat → Nat → List Nat
  | 0, _ => []
  | f + 1, n => if n = 0 then [] else digitsAux b f (n / b) ++ [n % b]

/-- The character for a decimal digit, as Python prints it. -/
def decDigitChar (d : Nat) : Char := Char.ofNat (48 + d)

/-- The character for a lowercase hexadecimal digit, as Python `format(v, 'x')`
prints it. -/
def hexDigitChar (d : Nat) : Char :=
  if d < 10 then Char.ofNat (48 + d) else Char.ofNat (87 + d)

/-- Numeric value of a decimal digit character, `none` for anything else. -/
def decCharVal (c : Char) : Option Nat :=
  if 48 ≤ c.toNat ∧ c.toNat ≤ 57 then some (c.toNat - 48) else none

/-- Numeric value of a hexadecimal digit character (both cases accepted,
as by Python `int(s, 16)`), `none` for anything else. -/
def hexCharVal (c : Char) : Option Nat :=
  if 48 ≤ c.toNat ∧ c.toNat ≤ 57 then some (c.toNat - 48)
  else if 97 ≤ c.toNat ∧ c.toNat ≤ 102 then some (c.toNat - 87)
  else if 65 ≤ c.toNat ∧ c.toNat ≤ 70 then some (c.toNat - 55)
  else none

/-- `mapOption f l` is `some` of the image when `f` succeeds everywhere. -/
def mapOption {α β : Type} (f : α → Option β) : List α → Option (List β)
  | [] => some []
  | a :: l =>
    match f a, mapOption f l with
    | some b, some bs => some (b :: bs)
    | _, _ => none

/-- Value of a big-endian digit list. -/
def digitsVal (b : Nat) (ds : List Nat) : Nat := ds.foldl (fun a d => b * a + d) 0

/-- The decimal character rendering of a natural number (Python `str(n)`). -/
def natToDecChars (n : Nat) : List Char :=
  if n = 0 then ['0'] else (digitsAux 10 n n).map decDigitChar

/-- The lowercase hexadecimal character rendering of a natural number
(Python `format(n, 'x')`). -/
def natToHexChars (n : Nat) : List Char :=
  if n = 0 then ['0'] else (digitsAux 16 n n).map hexDigitChar

/-- Python `str(i)` for an integer. -/
def intToDecChars (i : Int) : List Char :=
  if i < 0 then '-' :: natToDecChars i.natAbs else natToDecChars i.natAbs

/-- Python `f'0x.ix.'`: note that for a negative integer this produces the
sign after the `0x` prefix (`0x-5`), which `int(s, 16)` cannot parse back. -/
def intToHexAttrChars (i : Int) : List Char :=
  '0' :: 'x' :: (if i < 0 then '-' :: natToHexChars i.natAbs else natToHexChars i.natAbs)

/-- Parse a nonempty big-endian decimal digit string. -/
def parseDecNatChars (cs : List Char) : Option Nat :=
  if cs.isEmpty then none else (mapOption decCharVal cs).map (digitsVal 10)

/-- Parse a nonempty big-endian hexadecimal digit string. -/
def parseHexNatChars (cs : List Char) : Option Nat :=
  if cs.isEmpty then none else (mapOption hexCharVal cs).map (digitsVal 16)

/-- Python `int(s)` on the integer fragment: optional sign, then decimal
digits. -/
def parseDecIntChars (cs : List Char) : Option Int :=
  match cs with
  | [] => none
  | c :: rest =>
    if c = '-' then (parseDecNatChars rest).map (fun n => -(n : Int))
    else if c = '+' then (parseDecNatChars rest).map (fun n => (n : Int))
    else (parseDecNatChars (c :: rest)).map (fun n => (n : Int))

/-- Drop one optional `0x` / `0X` tag, as Python `int(s, 16)` allows. -/
def dropHexTag : List Char → List Char
  | '0' :: 'x' :: rest => rest
  | '0' :: 'X' :: rest => rest
  | cs => cs

/-- Python `int(s, 16)`: optional sign, optional `0x` tag, hex digits. -/
def parseHexIntChars (cs : List Char) : Option Int :=
  match cs with
  | [] => none
  | c :: rest =>
    if c = '-' then (parseHexNatChars (dropHexTag rest)).map (fun n => -(n : Int))
    else if c = '+' then (parseHexNatChars (dropHexTag rest)).map (fun n => (n : Int))
    else (parseHexNatChars (dropHexTag (c :: rest))).map (fun n => (n : Int))

/-- Python `s.startswith('0x')`. -/
def has0x (cs : List Char) : Bool :=
  match cs with
  | c1 :: c2 :: _ => c1 = '0' && c2 = 'x'
  | _ => false

/-- Python `'.' in s`. -/
def hasDot : List Char → Bool
  | [] => false
  | c :: cs => if c = '.' then true else hasDot cs

/-- String wrappers used for XML attribute values. -/
def natToDecStr (n : Nat) : String := String.mk (natToDecChars n)

def intToDecStr (i : Int) : String := String.mk (intToDecChars i)

def intToHexAttrStr (i : Int) : String := String.mk (intToHexAttrChars i)

def parseDecIntStr (s : String) : Option Int := parseDecIntChars s.data

/-- The nested helper `_rle_convert_datum_or_stride` of `xml_rle_read`
(`IndexXML.py`), on the integer fragment: a `0x`-tagged attribute is parsed
as hexadecimal, an attribute containing a dot is a float (outside this
integer model, hence `none`), anything else is parsed as a decimal
integer. -/
def rleConvertChars (cs : List Char) : Option Int :=
  if has0x cs then parseHexIntChars cs
  else if hasDot cs then none
  else parseDecIntChars cs

def rleConvertStr (s : String) : Option Int := rleConvertChars s.data

/-! ## XML element model

`xml.etree.Element` trees as read or written by the codec: a tag, an
ordered attribute list (keys unique in documents produced by
`XmlWrite`), and a list of child elements. Byte-strings
(`bytes` values encoded/decoded with `'ascii'`) are modelled as their
ascii `String` images, on which `encode`/`decode` are mutually inverse. -/

inductive Element : Type
  | mk (tag : String) (attrib : List (String × String)) (children : List Element)

def Element.tag : Element → String
  | .mk t _ _ => t

def Element.attrib : Element → List (String × String)
  | .mk _ a _ => a

def Element.children : Element → List Element
  | .mk _ _ c => c

instance : Inhabited Element := ⟨.mk "" [] []⟩

/-- First-match association lookup over the attribute list. -/
def lookupAttr (k : String) : List (String × String) → Option String
  | [] => none
  | (k1, v1) :: rest => if k1 = k then some v1 else lookupAttr k rest

/-- `element.attrib[key]` as a lookup; `none` models Python's `KeyError`. -/
def Element.getAttr (e : Element) (k : String) : Option String :=
  lookupAttr k e.attrib

/-- `element.iterfind('./tag')`: the direct children with the given tag. -/
def Element.childrenTagged (e : Element) (t : String) : List Element :=
  e.children.filter (fun c => c.tag = t)

/-- `element.iterfind('./t1/t2')`: grandchildren with tag `t2` under
children with tag `t1`. -/
def Element.grandchildrenTagged (e : Element) (t1 t2 : String) : List Element :=
  ((e.childrenTagged t1).map (fun c => c.childrenTagged t2)).flatten

/-- Error kinds for the read path, collapsing the Python exception classes:
`badValue` stands for `KeyError`/`ValueError` on attribute access and
`int(...)` parses, `assertFailed` for a failed `assert`, the rest for the
codec's own exceptions. -/
inductive XErr : Type
  | badValue
  | tagMismatch
  | assertFailed
  | xpathCardinality
  | countMismatch
  | mismatchedCounts
  | malformedLogicalFile
  | duplicateFrameArray
  | invalidSUL
  | schemaMismatch
  | sourceFileMissing
  | sourceFileTypeMismatch
  | logicalFileCountMismatch
  | fileError
deriving DecidableEq, Repr

instance {α β : Type} [DecidableEq α] [DecidableEq β] : DecidableEq (Except α β) := fun x y =>
  match x, y with
  | .error a, .error b =>
    if h : a = b then .isTrue (by rw [h]) else .isFalse (fun hc => h (by injection hc))
  | .ok a, .ok b =>
    if h : a = b then .isTrue (by rw [h]) else .isFalse (fun hc => h (by injection hc))
  | .error _, .ok _ => .isFalse (fun hc => by injection hc)
  | .ok _, .error _ => .isFalse (fun hc => by injection hc)

/-- `xml_single_element(element, './tag')` (`IndexXML.py`): the unique child
with the given tag, failing with `ExceptionIndexXMLRead` otherwise. -/
def xml_single_element (e : Element) (t : String) : Except XErr Element :=
  match e.childrenTagged t with
  | [x] => .ok x
  | _ => .error .xpathCardinality

/-- Replace the value stored under key `k` (used to state attribute
mutation). -/
def Element.setAttr (e : Element) (k v : String) : Element :=
  .mk e.tag (e.attrib.map (fun p => if p.1 = k then (k, v) else p)) e.children

/-! ## The RLE engine

Modelled from the spec: `TotalDepth.common.Rle` is not among the sources
(only its callers in `IndexXML.py`/`LogPassXML.py` are). Per spec section 3,
an RLE is an ordered list of items `(datum, stride, repeat)`, each standing
for `repeat + 1` values `datum, datum + stride, ...`; `num_values()` is the
sum of `repeat + 1` over items and `len()` the number of items. The
construction policy starts a new item on the first value or when a step
breaks the current item's stride, a single-element item having an undefined
stride until its second value arrives. Values are integers here (the float
case is outside this model). `repeat` is called `rpt` (a Lean keyword). -/

structure RLEItem : Type where
  datum : Int
  stride : Int
  rpt : Int
deriving DecidableEq, Repr

structure RLE : Type where
  rle_items : List RLEItem
deriving DecidableEq, Repr

/-- The `repeat + 1` values an item stands for. -/
def RLEItem.values (it : RLEItem) : List Int :=
  (List.range (it.rpt + 1).toNat).map (fun k : Nat => it.datum + (k : Int) * it.stride)

def RLE.num_values (r : RLE) : Int :=
  (r.rle_items.map (fun it => it.rpt + 1)).sum

/-- `len(rle)`: the number of items. -/
def RLE.len (r : RLE) : Nat := r.rle_items.length

/-- `rle.values()`: expansion of every item in order. -/
def RLE.values (r : RLE) : List Int :=
  (r.rle_items.map RLEItem.values).flatten

/-- One `append` step of the construction policy, on the item list. -/
def rleAppendItems : List RLEItem → Int → List RLEItem
  | [], v => [⟨v, 0, 0⟩]
  | it :: rest, v =>
    match rest with
    | [] =>
      if it.rpt = 0 then [⟨it.datum, v - it.datum, 1⟩]
      else if v = it.datum + (it.rpt + 1) * it.stride then [⟨it.datum, it.stride, it.rpt + 1⟩]
      else [it, ⟨v, 0, 0⟩]
    | b :: rest2 => it :: rleAppendItems (b :: rest2) v

/-- `Rle.create_rle(sequence)`: fold the construction policy over the
input. -/
def create_rle (l : List Int) : RLE :=
  ⟨l.foldl rleAppendItems []⟩

/-! ### RLE round-trip: `expand(create(sequence)) = sequence` -/

def itemsValues (items : List RLEItem) : List Int :=
  (items.map RLEItem.values).flatten

def itemsWF (items : List RLEItem) : Prop :=
  ∀ it ∈ items, 0 ≤ it.rpt

instance (items : List RLEItem) : Decidable (itemsWF items) := by
  rw [itemsWF]; infer_instance

/-! ## RLE serialization (`xml_rle_write`) and deserialization
(`xml_rle_read`), from `IndexXML.py` -/

/-- Attribute encoding chosen by the `hex_output` flag:
`f'0x.vx.'` or `f'.v.'`. -/
def fmtAttr (hex_output : Bool) (v : Int) : String :=
  if hex_output then intToHexAttrStr v else intToDecStr v

/-- `xml_rle_write(rle, element_name, xml_stream, hex_output)`: one element
carrying `count` and `rle_len`, with one `RLE` child per item carrying
`datum`, `stride` (per `hex_output`) and `repeat` (always decimal). -/
def xml_rle_write (rle : RLE) (element_name : String) (hex_output : Bool) : Element :=
  .mk element_name
    [("count", intToDecStr rle.num_values), ("rle_len", natToDecStr rle.len)]
    (rle.rle_items.map (fun it =>
      .mk "RLE"
        [("datum", fmtAttr hex_output it.datum),
         ("stride", fmtAttr hex_output it.stride),
         ("repeat", intToDecStr it.rpt)] []))

/-- The per-child body of the `xml_rle_read` loop: build an `RLEItem` from
the `datum`, `repeat` and `stride` attributes via
`_rle_convert_datum_or_stride`. -/
def readRLEItem (e : Element) : Option RLEItem :=
  match (e.getAttr "datum").bind rleConvertStr with
  | none => none
  | some d =>
    match (e.getAttr "repeat").bind rleConvertStr with
    | none => none
    | some r =>
      match (e.getAttr "stride").bind rleConvertStr with
      | none => none
      | some s => some ⟨d, s, r⟩

/-- `xml_rle_read(element)` (`IndexXML.py`, identical in `LogPassXML.py`):
parse every `RLE` child, then check the declared `count` against
`num_values()` and the declared `rle_len` against `len()`, failing with
`ExceptionIndexXMLRead` (`countMismatch`) on disagreement. -/
def xml_rle_read (e : Element) : Except XErr RLE :=
  match mapOption readRLEItem (e.childrenTagged "RLE") with
  | none => .error .badValue
  | some items =>
    match (e.getAttr "count").bind parseDecIntStr with
    | none => .error .badValue
    | some count =>
      if count ≠ RLE.num_values ⟨items⟩ then .error .countMismatch
      else
        match (e.getAttr "rle_len").bind parseDecIntStr with
        | none => .error .badValue
        | some rl =>
          if rl ≠ ((items.length : Nat) : Int) then .error .countMismatch
          else .ok ⟨items⟩

/-- Items whose `datum` and `stride` survive the `f'0x.vx.'` encoding. -/
def RLE.hexOk (r : RLE) : Prop :=
  ∀ it ∈ r.rle_items, 0 ≤ it.datum ∧ 0 ≤ it.stride

instance (r : RLE) : Decidable r.hexOk := by
  rw [RLE.hexOk]; infer_instance

/-! ## Comma-joined integer lists (the `dimensions` attribute) -/

/-- Python `','.join(parts)`. -/
def joinCommaChars : List (List Char) → List Char
  | [] => []
  | [p] => p
  | p :: q :: rest => p ++ ',' :: joinCommaChars (q :: rest)

/-- Python `s.split(',')` (always at least one part). -/
def splitCommaChars : List Char → List (List Char)
  | [] => [[]]
  | c :: rest =>
    match splitCommaChars rest with
    | [] => [[]]
    | p :: ps => if c = ',' then [] :: p :: ps else (c :: p) :: ps

/-- The `dimensions` attribute as written:
`','.join(f'.vd.' for v in dimensions)`. -/
def dimsAttrStr (dims : List Int) : String :=
  String.mk (joinCommaChars (dims.map intToDecChars))

/-- The `dimensions` attribute as read:
`[int(v) for v in attr.split(',')]`. -/
def parseDimsStr (s : String) : Option (List Int) :=
  mapOption parseDecIntChars (splitCommaChars s.data)

/-! ## The IFLR side table -/

/-- `LogicalRecordPosition` (external `TotalDepth.RP66V1.core.File`):
the two offsets that locate a logical record. -/
structure LogicalRecordPosition : Type where
  vr_position : Int
  lrsh_position : Int
deriving DecidableEq, Repr

/-- Modelled from the spec: `IFLRReference` of `TotalDepth.RP66V1.core.XAxis`
is not among the sources. The spec describes one side-table entry as a
`(frame_number, lrsh_position, x_axis_value)` triple; the callers in
`IndexXML.py` read the fields `logical_record_position.lrsh_position`,
`frame_number` and `x_axis` (`frame_array_to_XML`) and build it positionally
from a `(lrsh, frame number, x axis)` tuple (`iflr_data_from_xml`), so the
field order is `logical_record_position`, `frame_number`, `x_axis`. -/
structure IFLRReference : Type where
  logical_record_position : LogicalRecordPosition
  frame_number : Int
  x_axis : Int
deriving DecidableEq, Repr

/-- An `IFLRReference` as produced by the XML read path, where the first
positional component receives the raw LRSH offset integer. -/
structure IFLRRead : Type where
  logical_record_position : Int
  frame_number : Int
  x_axis : Int
deriving DecidableEq, Repr

/-- `zip(rle_lrsh.values(), rle_frames.values(), rle_xaxis.values())`
packed into `IFLRReference(*v)` tuples (read side). -/
def zip3IFLR : List Int → List Int → List Int → List IFLRRead
  | a :: as2, b :: bs, c :: cs => ⟨a, b, c⟩ :: zip3IFLR as2 bs cs
  | _, _, _ => []

/-! ## Channels and Frame Arrays -/

/-- A Python value that is either an `int` or a `str`: the `O` and `C`
components of an `ObjectName` are ints when built by the binary-file scan
but raw strings when rebuilt by `xml_object_name`. -/
inductive IntOrStr : Type
  | int (n : Int)
  | str (s : String)
deriving DecidableEq, Repr

/-- Python `f'.v.'` on such a value. -/
def IntOrStr.pyStr : IntOrStr → String
  | .int n => intToDecStr n
  | .str s => s

/-- `RepCode.ObjectName` (external): triple `(O, C, I)`; `I` is a
byte-string, modelled by its ascii image. Equality is structural. -/
structure ObjectName : Type where
  O : IntOrStr
  C : IntOrStr
  I : String
deriving DecidableEq, Repr

/-- A `FrameChannel.ident`: an `ObjectName` when built by the binary scan,
a bare byte-string when rebuilt by `frame_channel_from_XML` (which passes
only `attrib['I'].encode('ascii')`). -/
inductive ChannelIdent : Type
  | objectName (o : ObjectName)
  | bytes (b : String)
deriving DecidableEq, Repr

/-- `LogPass.FrameChannel` (external class; fields as used by the codec):
identifier, long name, representation code, units, dimensions. -/
structure FrameChannel : Type where
  ident : ChannelIdent
  long_name : String
  rep_code : Int
  units : String
  dimensions : List Int
deriving DecidableEq, Repr

/-- Modelled from the spec: `LogPass.FrameChannel.count` is not among the
sources; per spec section 3 it is the derived total element count of the
dimensionality vector. -/
def FrameChannel.count (c : FrameChannel) : Int :=
  c.dimensions.foldl (fun a b => a * b) 1

/-- `LogPass.FrameArray` (external class; fields as used by the codec). -/
structure FrameArray : Type where
  ident : ObjectName
  description : String
  channels : List FrameChannel
deriving DecidableEq, Repr

/-- `frame_channel_to_XML(channel, xml_stream)` (`IndexXML.py`): the
`Channel` element; `none` models the `AttributeError` when the
channel's ident is not an `ObjectName`. -/
def frame_channel_to_XML (channel : FrameChannel) : Option Element :=
  match channel.ident with
  | .bytes _ => none
  | .objectName o =>
    some (.mk "Channel"
      [("O", o.O.pyStr), ("C", o.C.pyStr), ("I", o.I),
       ("long_name", channel.long_name),
       ("rep_code", intToDecStr channel.rep_code),
       ("units", channel.units),
       ("dimensions", dimsAttrStr channel.dimensions),
       ("count", intToDecStr channel.count)] [])

/-- `frame_channel_from_XML(channel_node)` (`IndexXML.py`): note that the
rebuilt ident is only `attrib['I'].encode('ascii')` — a byte-string, not
an `ObjectName` — and that `O`/`C` are not read at all. -/
def frame_channel_from_XML (channel_node : Element) : Except XErr FrameChannel :=
  if channel_node.tag ≠ "Channel" then .error .tagMismatch
  else
    match channel_node.getAttr "I" with
    | none => .error .badValue
    | some i =>
      match channel_node.getAttr "long_name" with
      | none => .error .badValue
      | some ln =>
        match (channel_node.getAttr "rep_code").bind parseDecIntStr with
        | none => .error .badValue
        | some rc =>
          match channel_node.getAttr "units" with
          | none => .error .badValue
          | some u =>
            match (channel_node.getAttr "dimensions").bind parseDimsStr with
            | none => .error .badValue
            | some dims => .ok ⟨.bytes i, ln, rc, u, dims⟩

/-- `xml_object_name(node)` (`IndexXML.py` line 132): builds
`ObjectName(node.attrib['O'], node.attrib['C'], node.attrib['I'].encode('ascii'))`
— `O` and `C` are kept as raw strings, not parsed to ints. -/
def xml_object_name (node : Element) : Option ObjectName :=
  match node.getAttr "O", node.getAttr "C", node.getAttr "I" with
  | some o, some c, some i => some ⟨.str o, .str c, i⟩
  | _, _, _ => none

/-- `iflr_data_from_xml(frame_array_node)` (`IndexXML.py`): read the three
RLE blocks under the unique `IFLR` child (in source order LRSH,
FrameNumbers, Xaxis), fail with `ExceptionFrameArrayInit`
(`mismatchedCounts`) unless the declared `count` and the three
`num_values()` all agree, and zip the expansions into
`IFLRReference(*v)` triples. -/
def iflr_data_from_xml (frame_array_node : Element) : Except XErr (List IFLRRead) :=
  match xml_single_element frame_array_node "IFLR" with
  | .error e => .error e
  | .ok iflr_node =>
    match xml_single_element iflr_node "LRSH" with
    | .error e => .error e
    | .ok eL =>
      match xml_rle_read eL with
      | .error e => .error e
      | .ok rle_lrsh =>
        match xml_single_element iflr_node "FrameNumbers" with
        | .error e => .error e
        | .ok eF =>
          match xml_rle_read eF with
          | .error e => .error e
          | .ok rle_frames =>
            match xml_single_element iflr_node "Xaxis" with
            | .error e => .error e
            | .ok eX =>
              match xml_rle_read eX with
              | .error e => .error e
              | .ok rle_xaxis =>
                match (iflr_node.getAttr "count").bind parseDecIntStr with
                | none => .error .badValue
                | some c =>
                  if c = rle_lrsh.num_values
                      ∧ rle_lrsh.num_values = rle_frames.num_values
                      ∧ rle_frames.num_values = rle_xaxis.num_values then
                    .ok (zip3IFLR rle_lrsh.values rle_frames.values rle_xaxis.values)
                  else .error .mismatchedCounts

/-- `frame_array_to_XML(frame_array, iflr_data, xml_stream)`
(`IndexXML.py`): the `FrameArray` element with `x_axis`/`x_units` taken
unconditionally from `channels[0]`, the `Channels` element, and the `IFLR`
element holding the three RLE blocks (FrameNumbers decimal, LRSH
hexadecimal, Xaxis decimal). `none` models the `IndexError` on a
zero-channel array and the `AttributeError` on a non-`ObjectName` ident. -/
def frame_array_to_XML (frame_array : FrameArray) (iflr_data : List IFLRReference) :
    Option Element :=
  match frame_array.channels[0]? with
  | none => none
  | some c0 =>
    match c0.ident with
    | .bytes _ => none
    | .objectName o0 =>
      match mapOption frame_channel_to_XML frame_array.channels with
      | none => none
      | some channel_elems =>
        some (.mk "FrameArray"
          [("O", frame_array.ident.O.pyStr), ("C", frame_array.ident.C.pyStr),
           ("I", frame_array.ident.I), ("description", frame_array.description),
           ("x_axis", o0.I), ("x_units", c0.units)]
          [.mk "Channels" [("count", natToDecStr frame_array.channels.length)] channel_elems,
           .mk "IFLR" [("count", natToDecStr iflr_data.length)]
             [xml_rle_write (create_rle (iflr_data.map (fun v => v.frame_number)))
                "FrameNumbers" false,
              xml_rle_write (create_rle
                  (iflr_data.map (fun v => v.logical_record_position.lrsh_position)))
                "LRSH" true,
              xml_rle_write (create_rle (iflr_data.map (fun v => v.x_axis)))
                "Xaxis" false]])

/-- Sequence a fallible read over a list, stopping at the first error. -/
def mapExcept {α β : Type} (f : α → Except XErr β) : List α → Except XErr (List β)
  | [] => .ok []
  | a :: l =>
    match f a with
    | .error e => .error e
    | .ok b =>
      match mapExcept f l with
      | .error e => .error e
      | .ok bs => .ok (b :: bs)

/-- `frame_array_from_XML(frame_array_node)` (`IndexXML.py`): rebuild the
`FrameArray` (ident via `xml_object_name`, description, channels from
`./Channels/Channel`) and the side table via `iflr_data_from_xml`. -/
def frame_array_from_XML (frame_array_node : Element) :
    Except XErr (FrameArray × List IFLRRead) :=
  if frame_array_node.tag ≠ "FrameArray" then .error .tagMismatch
  else
    match xml_object_name frame_array_node with
    | none => .error .badValue
    | some ident =>
      match frame_array_node.getAttr "description" with
      | none => .error .badValue
      | some desc =>
        match mapExcept frame_channel_from_XML
            (frame_array_node.grandchildrenTagged "Channels" "Channel") with
        | .error e => .error e
        | .ok channels =>
          match iflr_data_from_xml frame_array_node with
          | .error e => .error e
          | .ok iflr => .ok (⟨ident, desc, channels⟩, iflr)

/-- The identifier byte-string inside either form of a channel ident. -/
def ChannelIdent.identI : ChannelIdent → String
  | .objectName o => o.I
  | .bytes b => b

/-- What a channel becomes after an XML write/read cycle: only the `I`
byte-string of its identity survives (`frame_channel_from_XML` reads
nothing else into `ident`). -/
def channelAfterXML (c : FrameChannel) : FrameChannel :=
  ⟨.bytes c.ident.identI, c.long_name, c.rep_code, c.units, c.dimensions⟩

/-- What a frame array becomes after an XML write/read cycle: `O` and `C`
of its identity degrade to their decimal string renderings
(`xml_object_name` keeps the raw attribute strings), and every channel
degrades per `channelAfterXML`. -/
def frameArrayAfterXML (fa : FrameArray) : FrameArray :=
  ⟨⟨.str fa.ident.O.pyStr, .str fa.ident.C.pyStr, fa.ident.I⟩, fa.description,
   fa.channels.map channelAfterXML⟩

def iflrNodeW : Element :=
  .mk "FrameArray" [("O", "11"), ("C", "0"), ("I", "0B")]
    [.mk "IFLR" [("count", "2")]
      [.mk "FrameNumbers" [("count", "2"), ("rle_len", "1")]
        [.mk "RLE" [("datum", "1"), ("stride", "1"), ("repeat", "1")] []],
       .mk "LRSH" [("count", "2"), ("rle_len", "1")]
        [.mk "RLE" [("datum", "0x10"), ("stride", "0x8"), ("repeat", "1")] []],
       .mk "Xaxis" [("count", "2"), ("rle_len", "1")]
        [.mk "RLE" [("datum", "5"), ("stride", "5"), ("repeat", "1")] []]]]

/-! ## Claims about the FrameArray/Channel XML round trip -/

def faC2 : FrameArray :=
  ⟨⟨.int 11, .int 0, "0B"⟩, "",
   [⟨.objectName ⟨.int 11, .int 0, "DEPT"⟩, "Depth", 2, "m", [1]⟩]⟩

/-! ## Claims about the RLE block serialization -/

def rleNegC5 : RLE := ⟨[⟨-1, 0, 0⟩]⟩

/-! ## Zero-channel frame arrays -/

def faZeroNode : Element :=
  .mk "FrameArray" [("O", "11"), ("C", "0"), ("I", "0B"), ("description", "")]
    [.mk "Channels" [("count", "0")] [],
     .mk "IFLR" [("count", "0")]
      [.mk "FrameNumbers" [("count", "0"), ("rle_len", "0")] [],
       .mk "LRSH" [("count", "0"), ("rle_len", "0")] [],
       .mk "Xaxis" [("count", "0"), ("rle_len", "0")] []]]

def rleBlockW : Element :=
  .mk "FrameNumbers" [("count", "3"), ("rle_len", "1")]
    [.mk "RLE" [("datum", "1"), ("stride", "1"), ("repeat", "2")] []]

/-! ## Storage Unit Label -/

/-- `StorageUnitLabel.StorageUnitLabel` (external): the five fields of the
fixed-shape label. -/
structure StorageUnitLabel : Type where
  storage_unit_sequence_number : Int
  dlis_version : String
  maximum_record_length : Int
  storage_unit_structure : String
  storage_set_identifier : String
deriving DecidableEq, Repr

/-- Modelled from the spec: `StorageUnitLabel.create_storage_unit_label` is
not among the sources; per spec section 3 it assembles the fixed-shape
label from the sequence number, DLIS version, maximum record length and
storage-set identifier, the storage unit structure being the required
literal `RECORD`. -/
def create_storage_unit_label (sequence_number : Int) (dlis_version : String)
    (maximum_record_length : Int) (storage_set_identifier : String) : StorageUnitLabel :=
  ⟨sequence_number, dlis_version, maximum_record_length, "RECORD", storage_set_identifier⟩

/-- `read_storage_unit_label_from_xml(root)` (`IndexXML.py`): find the
unique `StorageUnitLabel` child, validate the `dlis_version` literal, the
positivity of `sequence_number`, and the `storage_unit_structure` literal
(each failure `ExceptionIndexXMLRead`, here `invalidSUL`), then rebuild the
label from the parsed fields. -/
def read_storage_unit_label_from_xml (root : Element) : Except XErr StorageUnitLabel :=
  match xml_single_element root "StorageUnitLabel" with
  | .error e => .error e
  | .ok sul_element =>
    match sul_element.getAttr "dlis_version" with
    | none => .error .badValue
    | some dlis_version =>
      if dlis_version ≠ "V1.00" then .error .invalidSUL
      else
        match (sul_element.getAttr "sequence_number").bind parseDecIntStr with
        | none => .error .badValue
        | some sequence_number =>
          if sequence_number ≤ 0 then .error .invalidSUL
          else
            match (sul_element.getAttr "maximum_record_length").bind parseDecIntStr with
            | none => .error .badValue
            | some maximum_record_length =>
              match sul_element.getAttr "storage_unit_structure" with
              | none => .error .badValue
              | some storage_unit_structure =>
                if storage_unit_structure ≠ "RECORD" then .error .invalidSUL
                else
                  match sul_element.getAttr "storage_set_identifier" with
                  | none => .error .badValue
                  | some storage_set_identifier =>
                    .ok (create_storage_unit_label sequence_number dlis_version
                      maximum_record_length storage_set_identifier)

def sulRootW : Element :=
  .mk "RP66V1FileIndex" []
    [.mk "StorageUnitLabel"
      [("sequence_number", "1"), ("dlis_version", "V1.00"),
       ("storage_unit_structure", "RECORD"), ("maximum_record_length", "8192"),
       ("storage_set_identifier", "Default Storage Set")] []]

/-! ## Logical Files and the Logical Index -/

/-- The part of a rebuilt `LogicalFile` that the index read path itself
constructs (EFLR bodies are re-read from the original binary file and are
external to this model): the per-frame-array side-table map. -/
structure LogicalFileModel : Type where
  iflr_position_map : List (ObjectName × List IFLRRead)
deriving DecidableEq, Repr

/-- `xml_integer_attribute_read(element, attr)` (`IndexXML.py`): `0x`-tagged
attributes parse as hexadecimal, others as decimal. -/
def xml_integer_attribute_read (e : Element) (attr : String) : Option Int :=
  (e.getAttr attr).bind
    (fun s => if has0x s.data then parseHexIntChars s.data else parseDecIntChars s.data)

/-- The EFLR loop of `read_logical_file_from_xml`: for each `EFLR` node,
parse its `vr_position`/`lrsh_position` and fetch the record bytes from the
original binary file. The external `FileRead.get_file_logical_data` call is
abstracted by the `file_reads_ok` flag (`fileError` when it fails). -/
def read_eflr_positions (eflrs : List Element) (file_reads_ok : Bool) : Except XErr Unit :=
  match eflrs with
  | [] => .ok ()
  | e :: rest =>
    match xml_integer_attribute_read e "vr_position" with
    | none => .error .badValue
    | some _ =>
      match xml_integer_attribute_read e "lrsh_position" with
      | none => .error .badValue
      | some _ =>
        if file_reads_ok then read_eflr_positions rest file_reads_ok
        else .error .fileError

/-- The FrameArray loop of `read_logical_file_from_xml`: for each
`./LogPass/FrameArray` node, take its object name and side table, failing
with `duplicateFrameArray` when the name is already in the map. -/
def read_frame_arrays (nodes : List Element) (acc : List (ObjectName × List IFLRRead)) :
    Except XErr (List (ObjectName × List IFLRRead)) :=
  match nodes with
  | [] => .ok acc
  | n :: rest =>
    match xml_object_name n with
    | none => .error .badValue
    | some name =>
      match iflr_data_from_xml n with
      | .error e => .error e
      | .ok iflr =>
        if name ∈ acc.map Prod.fst then .error .duplicateFrameArray
        else read_frame_arrays rest (acc ++ [(name, iflr)])

/-- `read_logical_file_from_xml(logical_file_node, rp66v1_file)`
(`IndexXML.py`): assert the tag, check that there are at least two `EFLR`
children and that the first two declare `set_type` `FILE-HEADER` then
`ORIGIN` (each failure `ExceptionRP66V1IndexXMLRead`,
here `malformedLogicalFile`) — all before any read of the original binary
file — then re-read every EFLR from the file and collect the Log Pass side
tables. -/
def read_logical_file_from_xml (logical_file_node : Element) (file_reads_ok : Bool) :
    Except XErr LogicalFileModel :=
  if logical_file_node.tag ≠ "LogicalFile" then .error .assertFailed
  else
    if (logical_file_node.childrenTagged "EFLR").length < 2 then .error .malformedLogicalFile
    else
      match ((logical_file_node.childrenTagged "EFLR").getD 0 default).getAttr "set_type" with
      | none => .error .badValue
      | some st0 =>
        if st0 ≠ "FILE-HEADER" then .error .malformedLogicalFile
        else
          match ((logical_file_node.childrenTagged "EFLR").getD 1 default).getAttr "set_type" with
          | none => .error .badValue
          | some st1 =>
            if st1 ≠ "ORIGIN" then .error .malformedLogicalFile
            else
              match read_eflr_positions (logical_file_node.childrenTagged "EFLR")
                  file_reads_ok with
              | .error e => .error e
              | .ok _ =>
                match read_frame_arrays
                    (logical_file_node.grandchildrenTagged "LogPass" "FrameArray") [] with
                | .error e => .error e
                | .ok m => .ok ⟨m⟩

def lfNodeC6 : Element := .mk "LogicalFile" [("index", "0")] []

/-- The rebuilt Logical Index, with filesystem-dependent parts abstracted:
the SUL, the logical files, and the expanded Visible Record positions. -/
structure LogicalIndexModel : Type where
  storage_unit_label : StorageUnitLabel
  logical_files : List LogicalFileModel
  visible_record_positions : List Int
deriving DecidableEq, Repr

def XML_SCHEMA_VERSION : String := "0.1.0"

/-- `read_logical_index_from_xml(index_path, archive_root)` (`IndexXML.py`)
with the filesystem abstracted: `source_is_file` models
`os.path.isfile(original_file_path)`, `source_is_rp66v1` the binary
signature check, and `file_reads_ok` the per-EFLR reads from the original
binary file. Tag and schema checks, the SUL read, the `LogicalFiles` loop,
the count check after the loop, and the trailing `VisibleRecords` block
follow the source order. -/
def read_logical_index_from_xml (root : Element)
    (source_is_file source_is_rp66v1 file_reads_ok : Bool) :
    Except XErr LogicalIndexModel :=
  if root.tag ≠ "RP66V1FileIndex" then .error .tagMismatch
  else
    match root.getAttr "schema_version" with
    | none => .error .badValue
    | some sv =>
      if sv ≠ XML_SCHEMA_VERSION then .error .schemaMismatch
      else
        match root.getAttr "path" with
        | none => .error .badValue
        | some _ =>
          if ¬ source_is_file then .error .sourceFileMissing
          else if ¬ source_is_rp66v1 then .error .sourceFileTypeMismatch
          else
            match read_storage_unit_label_from_xml root with
            | .error e => .error e
            | .ok sul =>
              match xml_single_element root "LogicalFiles" with
              | .error e => .error e
              | .ok logical_files_node =>
                match (logical_files_node.getAttr "count").bind parseDecIntStr with
                | none => .error .badValue
                | some logical_file_count =>
                  match mapExcept (fun n => read_logical_file_from_xml n file_reads_ok)
                      (logical_files_node.childrenTagged "LogicalFile") with
                  | .error e => .error e
                  | .ok files =>
                    if ((files.length : Nat) : Int) ≠ logical_file_count then
                      .error .logicalFileCountMismatch
                    else
                      match xml_single_element root "VisibleRecords" with
                      | .error e => .error e
                      | .ok vr_node =>
                        match xml_rle_read vr_node with
                        | .error e => .error e
                        | .ok rle_vr => .ok ⟨sul, files, rle_vr.values⟩

def indexRootW : Element :=
  .mk "RP66V1FileIndex"
    [("path", "a.dlis"), ("size", "100"), ("schema_version", "0.1.0")]
    [.mk "StorageUnitLabel"
      [("sequence_number", "1"), ("dlis_version", "V1.00"),
       ("storage_unit_structure", "RECORD"), ("maximum_record_length", "8192"),
       ("storage_set_identifier", "Default")] [],
     .mk "LogicalFiles" [("count", "0")] [],
     .mk "VisibleRecords" [("count", "0"), ("rle_len", "0")] []]

/-! ## The per-file indexing driver -/

/-- Outcome of a Python call: a returned value, or a raised exception.
`catchable` is true when the exception derives from `Exception` (so the
`except Exception:` clause catches it) and false for one deriving only
from `BaseException`, such as `KeyboardInterrupt`. -/
inductive PyOutcome (α : Type) : Type
  | ok (a : α)
  | raises (catchable : Bool)
deriving DecidableEq, Repr

/-- `IndexResult` (`IndexXML.py`): the per-file result record. The
floating-point `time` field is outside this model. -/
structure IndexResult : Type where
  path_input : String
  size_input : Int
  size_index : Int
  exception : Bool
  ignored : Bool
deriving DecidableEq, Repr

/-- `index_a_single_file(path_in, path_out, private)` (`IndexXML.py` lines
584-628), with the external calls abstracted as oracles: `bft` is
`binary_file_type_from_path(path_in)` (line 586, called before the `try`),
`mkdirs` is `os.makedirs(out_dir, exist_ok=True)` (also before the `try`;
reached only for RP66V1 inputs when `path_out` is nonempty and the output
directory is missing, the latter modelled by `need_mkdir`), and `indexing`
is the body of the `try` block (open / `FileRead` / `LogicalIndex` /
serialize, returning the index size). `size_in` stands for
`os.path.getsize(path_in)`. The `except ExceptionTotalDepthRP66V1` and
`except Exception` clauses catch exactly the catchable outcomes of
`indexing`; an exception of `bft` or `mkdirs` is raised outside the `try`
and propagates, as does a non-catchable one of `indexing`. -/
def index_a_single_file (path_in path_out : String) (bft : PyOutcome String)
    (need_mkdir : Bool) (mkdirs : PyOutcome Unit) (indexing : PyOutcome Int)
    (size_in : Int) : PyOutcome IndexResult :=
  match bft with
  | .raises c => .raises c
  | .ok bin_file_type =>
    if bin_file_type = "RP66V1" then
      match (if path_out ≠ "" ∧ need_mkdir = true then mkdirs else .ok ()) with
      | .raises c => .raises c
      | .ok _ =>
        match indexing with
        | .ok index_size => .ok ⟨path_in, size_in, index_size, false, false⟩
        | .raises c =>
          if c = true then .ok ⟨path_in, size_in, 0, true, false⟩
          else .raises c
    else .ok ⟨path_in, 0, 0, false, true⟩

/-- One file's worth of oracle state for the sequential batch driver. -/
structure FileJob : Type where
  path_in : String
  path_out : String
  bft : PyOutcome String
  need_mkdir : Bool
  mkdirs : PyOutcome Unit
  indexing : PyOutcome Int
  size_in : Int
deriving DecidableEq, Repr

def runJob (j : FileJob) : PyOutcome IndexResult :=
  index_a_single_file j.path_in j.path_out j.bft j.need_mkdir j.mkdirs j.indexing j.size_in

/-- The directory branch of `index_dir_or_file` (`IndexXML.py` lines
653-662): `ret[file_in_out.filePathIn] = index_a_single_file(...)` for each
walked file in order; an exception propagating from one call aborts the
loop (the multiprocessing driver is concurrency and outside this model). -/
def index_dir_or_file : List FileJob → PyOutcome (List (String × IndexResult))
  | [] => .ok []
  | j :: rest =>
    match runJob j with
    | .raises c => .raises c
    | .ok r =>
      match index_dir_or_file rest with
      | .raises c => .raises c
      | .ok rs => .ok ((j.path_in, r) :: rs)

/-- A file whose type sniffing itself raises (e.g. an unreadable path). -/
def jobBftRaises : FileJob := ⟨"bad.dlis", "", .raises true, false, .ok (), .ok 0, 0⟩

def jobGood : FileJob := ⟨"good.dlis", "", .ok "RP66V1", false, .ok (), .ok 100, 500⟩

/-! ## Theorems -/

/-! ### Round-trip lemmas for the numeric fragment -/

theorem digitsAux_lt (b : Nat) (hb : 2 ≤ b) :
    ∀ f n, ∀ d ∈ digitsAux b f n, d < b := by
  intro f
  induction f with
  | zero => intro n d hd; simp [digitsAux] at hd
  | succ f ih =>
    intro n d hd
    by_cases h : n = 0
    · simp [digitsAux, h] at hd
    · simp only [digitsAux, h, if_false, List.mem_append, List.mem_singleton] at hd
      rcases hd with hd | hd
      · exact ih _ d hd
      · subst hd; exact Nat.mod_lt _ (by omega)

theorem digitsVal_digitsAux (b : Nat) (hb : 2 ≤ b) :
    ∀ f n a, n ≤ f →
      (digitsAux b f n).foldl (fun x d => b * x + d) a
        = a * b ^ (digitsAux b f n).length + n := by
  intro f
  induction f with
  | zero =>
    intro n a hn
    interval_cases n
    simp [digitsAux]
  | succ f ih =>
    intro n a hn
    by_cases h : n = 0
    · simp [digitsAux, h]
    · have hdiv : n / b ≤ f := by
        have h1 : n / b < n := Nat.div_lt_self (Nat.pos_of_ne_zero h) (by omega)
        omega
      simp only [digitsAux, h, if_false, List.foldl_append, List.length_append,
        List.foldl_cons, List.foldl_nil, List.length_cons, List.length_nil]
      rw [ih (n / b) a hdiv]
      have hmod : b * (n / b) + n % b = n := Nat.div_add_mod n b
      calc b * (a * b ^ (digitsAux b f (n / b)).length + n / b) + n % b
          = a * (b ^ (digitsAux b f (n / b)).length * b) + (b * (n / b) + n % b) := by ring
        _ = a * b ^ ((digitsAux b f (n / b)).length + (0 + 1)) + n := by rw [hmod]; ring

theorem decCharVal_decDigitChar (d : Nat) (hd : d < 10) :
    decCharVal (decDigitChar d) = some d := by
  interval_cases d <;> decide

theorem hexCharVal_hexDigitChar (d : Nat) (hd : d < 16) :
    hexCharVal (hexDigitChar d) = some d := by
  interval_cases d <;> decide

theorem mapOption_map_digits (dv : Char → Option Nat) (dc : Nat → Char) (ds : List Nat)
    (hinv : ∀ d ∈ ds, dv (dc d) = some d) :
    mapOption dv (ds.map dc) = some ds := by
  induction ds with
  | nil => rfl
  | cons d ds ih =>
    simp only [List.map_cons, mapOption]
    rw [hinv d (List.mem_cons_self d ds), ih (fun x hx => hinv x (List.mem_cons_of_mem d hx))]

theorem digitsAux_ne_nil (b : Nat) (f n : Nat) (hf : 0 < f) (hn : n ≠ 0) :
    digitsAux b f n ≠ [] := by
  cases f with
  | zero => omega
  | succ f => simp [digitsAux, hn]

theorem parseDecNatChars_natToDecChars (n : Nat) :
    parseDecNatChars (natToDecChars n) = some n := by
  by_cases h : n = 0
  · subst h; decide
  · have hmap := mapOption_map_digits decCharVal decDigitChar (digitsAux 10 n n)
      (fun d hd => decCharVal_decDigitChar d (digitsAux_lt 10 (by omega) n n d hd))
    have hval := digitsVal_digitsAux 10 (by omega) n n 0 le_rfl
    cases hd : digitsAux 10 n n with
    | nil => exact absurd hd (digitsAux_ne_nil 10 n n (by omega) h)
    | cons d ds =>
      rw [hd] at hmap hval
      have h1 : natToDecChars n = decDigitChar d :: ds.map decDigitChar := by
        rw [natToDecChars, if_neg h, hd, List.map_cons]
      rw [h1, parseDecNatChars]
      rw [if_neg (by simp)]
      rw [← List.map_cons, hmap]
      show some (digitsVal 10 (d :: ds)) = some n
      rw [digitsVal, hval]
      simp

theorem parseHexNatChars_natToHexChars (n : Nat) :
    parseHexNatChars (natToHexChars n) = some n := by
  by_cases h : n = 0
  · subst h; decide
  · have hmap := mapOption_map_digits hexCharVal hexDigitChar (digitsAux 16 n n)
      (fun d hd => hexCharVal_hexDigitChar d (digitsAux_lt 16 (by omega) n n d hd))
    have hval := digitsVal_digitsAux 16 (by omega) n n 0 le_rfl
    cases hd : digitsAux 16 n n with
    | nil => exact absurd hd (digitsAux_ne_nil 16 n n (by omega) h)
    | cons d ds =>
      rw [hd] at hmap hval
      have h1 : natToHexChars n = hexDigitChar d :: ds.map hexDigitChar := by
        rw [natToHexChars, if_neg h, hd, List.map_cons]
      rw [h1, parseHexNatChars]
      rw [if_neg (by simp)]
      rw [← List.map_cons, hmap]
      show some (digitsVal 16 (d :: ds)) = some n
      rw [digitsVal, hval]
      simp

/-! ### Character classification of the printed forms -/

theorem decCharVal_some_ne {c : Char} {d : Nat} (h : decCharVal c = some d) :
    c ≠ 'x' ∧ c ≠ '.' ∧ c ≠ '-' ∧ c ≠ '+' := by
  refine ⟨?_, ?_, ?_, ?_⟩ <;>
    (intro hc; subst hc; rw [show decCharVal _ = none from by decide] at h;
     exact Option.noConfusion h)

theorem hexCharVal_some_ne {c : Char} {d : Nat} (h : hexCharVal c = some d) :
    c ≠ '.' ∧ c ≠ '-' ∧ c ≠ '+' := by
  refine ⟨?_, ?_, ?_⟩ <;>
    (intro hc; subst hc; rw [show hexCharVal _ = none from by decide] at h;
     exact Option.noConfusion h)

theorem natToDecChars_ne_nil (n : Nat) : natToDecChars n ≠ [] := by
  by_cases h : n = 0
  · subst h; decide
  · rw [natToDecChars, if_neg h]
    intro hc
    exact digitsAux_ne_nil 10 n n (by omega) h (by
      cases he : digitsAux 10 n n with
      | nil => rfl
      | cons d ds => rw [he] at hc; simp at hc)

theorem natToHexChars_ne_nil (n : Nat) : natToHexChars n ≠ [] := by
  by_cases h : n = 0
  · subst h; decide
  · rw [natToHexChars, if_neg h]
    intro hc
    exact digitsAux_ne_nil 16 n n (by omega) h (by
      cases he : digitsAux 16 n n with
      | nil => rfl
      | cons d ds => rw [he] at hc; simp at hc)

theorem natToDecChars_all_digits (n : Nat) :
    ∀ c ∈ natToDecChars n, ∃ d, decCharVal c = some d := by
  intro c hc
  by_cases h : n = 0
  · subst h
    rw [show natToDecChars 0 = ['0'] from by decide] at hc
    rw [List.mem_singleton] at hc
    subst hc; exact ⟨0, by decide⟩
  · rw [natToDecChars, if_neg h] at hc
    rcases List.mem_map.1 hc with ⟨d, hd, rfl⟩
    exact ⟨d, decCharVal_decDigitChar d (digitsAux_lt 10 (by omega) n n d hd)⟩

theorem natToHexChars_all_digits (n : Nat) :
    ∀ c ∈ natToHexChars n, ∃ d, hexCharVal c = some d := by
  intro c hc
  by_cases h : n = 0
  · subst h
    rw [show natToHexChars 0 = ['0'] from by decide] at hc
    rw [List.mem_singleton] at hc
    subst hc; exact ⟨0, by decide⟩
  · rw [natToHexChars, if_neg h] at hc
    rcases List.mem_map.1 hc with ⟨d, hd, rfl⟩
    exact ⟨d, hexCharVal_hexDigitChar d (digitsAux_lt 16 (by omega) n n d hd)⟩

theorem hasDot_eq_false {cs : List Char} (h : ∀ c ∈ cs, c ≠ '.') :
    hasDot cs = false := by
  induction cs with
  | nil => rfl
  | cons c cs ih =>
    rw [hasDot, if_neg (h c (List.mem_cons_self c cs))]
    exact ih (fun x hx => h x (List.mem_cons_of_mem c hx))

theorem has0x_eq_false_of_no_x {cs : List Char} (h : ∀ c ∈ cs, c ≠ 'x') :
    has0x cs = false := by
  match cs with
  | [] => rfl
  | [c] => rfl
  | c1 :: c2 :: rest =>
    have h2 : c2 ≠ 'x' := h c2 (List.mem_cons_of_mem c1 (List.mem_cons_self c2 rest))
    simp [has0x, h2]

/-! ### Round trips for the attribute encodings the writer emits -/

theorem parseDecIntChars_intToDecChars (i : Int) :
    parseDecIntChars (intToDecChars i) = some i := by
  by_cases h : i < 0
  · rw [intToDecChars, if_pos h, parseDecIntChars]
    rw [if_pos rfl, parseDecNatChars_natToDecChars]
    show some (-(i.natAbs : Int)) = some i
    congr 1
    omega
  · rw [intToDecChars, if_neg h]
    cases hc : natToDecChars i.natAbs with
    | nil => exact absurd hc (natToDecChars_ne_nil _)
    | cons c rest =>
      have hdig : ∃ d, decCharVal c = some d := by
        apply natToDecChars_all_digits i.natAbs
        rw [hc]; exact List.mem_cons_self c rest
      rcases hdig with ⟨d, hd⟩
      rcases decCharVal_some_ne hd with ⟨_, _, hm, hp⟩
      rw [parseDecIntChars]
      rw [if_neg hm, if_neg hp, ← hc, parseDecNatChars_natToDecChars]
      show some ((i.natAbs : Int)) = some i
      congr 1
      omega

theorem parseHexIntChars_hexAttr (i : Int) (h : 0 ≤ i) :
    parseHexIntChars (intToHexAttrChars i) = some i := by
  rw [intToHexAttrChars, if_neg (by omega)]
  rw [parseHexIntChars]
  rw [if_neg (by decide), if_neg (by decide)]
  have hdrop : dropHexTag ('0' :: 'x' :: natToHexChars i.natAbs)
      = natToHexChars i.natAbs := rfl
  rw [hdrop, parseHexNatChars_natToHexChars]
  show some ((i.natAbs : Int)) = some i
  congr 1
  omega

theorem rleConvertChars_intToDecChars (i : Int) :
    rleConvertChars (intToDecChars i) = some i := by
  have hall : ∀ c ∈ intToDecChars i, ∃ d, decCharVal c = some d ∨ c = '-' := by
    intro c hc
    rw [intToDecChars] at hc
    by_cases h : i < 0
    · rw [if_pos h] at hc
      rcases List.mem_cons.1 hc with rfl | hc
      · exact ⟨0, Or.inr rfl⟩
      · rcases natToDecChars_all_digits _ c hc with ⟨d, hd⟩
        exact ⟨d, Or.inl hd⟩
    · rw [if_neg h] at hc
      rcases natToDecChars_all_digits _ c hc with ⟨d, hd⟩
      exact ⟨d, Or.inl hd⟩
  have hnx : ∀ c ∈ intToDecChars i, c ≠ 'x' := by
    intro c hc
    rcases hall c hc with ⟨d, hd | rfl⟩
    · exact (decCharVal_some_ne hd).1
    · decide
  have hnd : ∀ c ∈ intToDecChars i, c ≠ '.' := by
    intro c hc
    rcases hall c hc with ⟨d, hd | rfl⟩
    · exact (decCharVal_some_ne hd).2.1
    · decide
  rw [rleConvertChars, has0x_eq_false_of_no_x hnx, hasDot_eq_false hnd]
  simp only [Bool.false_eq_true, if_false]
  exact parseDecIntChars_intToDecChars i

theorem rleConvertChars_hexAttr (i : Int) (h : 0 ≤ i) :
    rleConvertChars (intToHexAttrChars i) = some i := by
  have h0x : has0x (intToHexAttrChars i) = true := by
    rw [intToHexAttrChars]
    rfl
  rw [rleConvertChars, h0x]
  simp only [if_true]
  exact parseHexIntChars_hexAttr i h

theorem rleConvertStr_intToDecStr (i : Int) :
    rleConvertStr (intToDecStr i) = some i :=
  rleConvertChars_intToDecChars i

theorem rleConvertStr_hexAttrStr (i : Int) (h : 0 ≤ i) :
    rleConvertStr (intToHexAttrStr i) = some i :=
  rleConvertChars_hexAttr i h

theorem parseDecIntStr_intToDecStr (i : Int) :
    parseDecIntStr (intToDecStr i) = some i :=
  parseDecIntChars_intToDecChars i

theorem parseDecIntStr_natToDecStr (n : Nat) :
    parseDecIntStr (natToDecStr n) = some (n : Int) := by
  have h : intToDecStr (n : Int) = natToDecStr n := by
    rw [intToDecStr, natToDecStr, intToDecChars, if_neg (by omega), Int.natAbs_ofNat]
  rw [← h]
  exact parseDecIntStr_intToDecStr (n : Int)

theorem itemsValues_nil : itemsValues [] = [] := rfl

theorem itemsValues_cons (it : RLEItem) (items : List RLEItem) :
    itemsValues (it :: items) = it.values ++ itemsValues items := by
  simp [itemsValues]

theorem RLEItem.values_single (d s : Int) :
    RLEItem.values ⟨d, s, 0⟩ = [d] := by
  have h1 : List.range 1 = [0] := rfl
  simp [RLEItem.values, h1]

theorem rleAppendItems_wf {items : List RLEItem} (h : itemsWF items) (v : Int) :
    itemsWF (rleAppendItems items v) := by
  induction items with
  | nil => intro it hit; rw [rleAppendItems] at hit; simp at hit; subst hit; simp
  | cons a rest ih =>
    cases rest with
    | nil =>
      intro it hit
      have ha : 0 ≤ a.rpt := h a (List.mem_cons_self a [])
      rw [rleAppendItems] at hit
      by_cases h0 : a.rpt = 0
      · rw [if_pos h0] at hit
        simp at hit; subst hit; simp
      · rw [if_neg h0] at hit
        by_cases h1 : v = a.datum + (a.rpt + 1) * a.stride
        · rw [if_pos h1] at hit
          simp at hit; subst hit; simp; omega
        · rw [if_neg h1] at hit
          simp at hit
          rcases hit with rfl | rfl
          · exact ha
          · simp
    | cons b rest2 =>
      intro it hit
      rw [rleAppendItems] at hit
      rcases List.mem_cons.1 hit with rfl | hit
      · exact h it (List.mem_cons_self it _)
      · exact ih (fun x hx => h x (List.mem_cons_of_mem a hx)) it hit

theorem RLEItem.values_succ (d s : Int) (r : Int) (hr : 0 ≤ r) :
    RLEItem.values ⟨d, s, r + 1⟩ = RLEItem.values ⟨d, s, r⟩ ++ [d + (r + 1) * s] := by
  rw [RLEItem.values, RLEItem.values]
  have h1 : (r + 1 + 1).toNat = (r + 1).toNat + 1 := by omega
  rw [h1, List.range_succ, List.map_append]
  simp only [List.map_cons, List.map_nil]
  congr 2
  have h2 : (((r + 1).toNat : Nat) : Int) = r + 1 := by omega
  rw [h2]

theorem itemsValues_append {items : List RLEItem} (h : itemsWF items) (v : Int) :
    itemsValues (rleAppendItems items v) = itemsValues items ++ [v] := by
  induction items with
  | nil =>
    rw [rleAppendItems, itemsValues_cons, RLEItem.values_single, itemsValues_nil]
    rfl
  | cons a rest ih =>
    cases rest with
    | nil =>
      have ha : 0 ≤ a.rpt := h a (List.mem_cons_self a [])
      rw [rleAppendItems]
      by_cases h0 : a.rpt = 0
      · rw [if_pos h0]
        have hv : RLEItem.values a = [a.datum] := by
          have : a = ⟨a.datum, a.stride, (0 : Int)⟩ := by
            cases a; simp_all
          rw [this]
          exact RLEItem.values_single _ _
        have h2 : RLEItem.values ⟨a.datum, v - a.datum, 1⟩ = [a.datum, v] := by
          rw [RLEItem.values]
          show List.map _ (List.range 2) = _
          rw [show List.range 2 = [0, 1] from rfl]
          simp only [List.map_cons, List.map_nil]
          norm_num
        rw [itemsValues_cons, itemsValues_cons, itemsValues_nil, h2, hv]
        simp
      · rw [if_neg h0]
        by_cases h1 : v = a.datum + (a.rpt + 1) * a.stride
        · rw [if_pos h1]
          have hsucc : ∃ r0 : Int, 0 ≤ r0 ∧ a.rpt = r0 ∧
              (⟨a.datum, a.stride, a.rpt + 1⟩ : RLEItem).values
                = (⟨a.datum, a.stride, a.rpt⟩ : RLEItem).values
                  ++ [a.datum + (a.rpt + 1) * a.stride] :=
            ⟨a.rpt, ha, rfl, RLEItem.values_succ a.datum a.stride a.rpt ha⟩
          rcases hsucc with ⟨r0, _, _, hs⟩
          have haa : (⟨a.datum, a.stride, a.rpt⟩ : RLEItem) = a := by cases a; rfl
          rw [itemsValues_cons, itemsValues_cons, itemsValues_nil, hs, haa, h1]
          simp
        · rw [if_neg h1]
          rw [itemsValues_cons, itemsValues_cons, itemsValues_cons, itemsValues_nil,
            RLEItem.values_single]
          simp
    | cons b rest2 =>
      rw [rleAppendItems, itemsValues_cons, itemsValues_cons,
        ih (fun x hx => h x (List.mem_cons_of_mem a hx))]
      rw [List.append_assoc]

theorem create_rle_foldl_values (l : List Int) :
    ∀ items, itemsWF items →
      itemsValues (l.foldl rleAppendItems items) = itemsValues items ++ l := by
  induction l with
  | nil => intro items h; simp
  | cons v l ih =>
    intro items h
    rw [List.foldl_cons]
    rw [ih _ (rleAppendItems_wf h v), itemsValues_append h v]
    simp

/-- Spec section 8, RLE round-trip: expanding `create_rle` of any integer
sequence reproduces the sequence. -/
theorem create_rle_values (l : List Int) : (create_rle l).values = l := by
  have h := create_rle_foldl_values l [] (by intro it hit; simp at hit)
  rw [create_rle, RLE.values]
  show itemsValues _ = l
  rw [h]
  rfl

theorem create_rle_wf (l : List Int) : itemsWF (create_rle l).rle_items := by
  rw [create_rle]
  show itemsWF (l.foldl rleAppendItems [])
  induction l using List.reverseRecOn with
  | nil => intro it hit; simp at hit
  | append_singleton l v ih =>
    rw [List.foldl_append, List.foldl_cons, List.foldl_nil]
    exact rleAppendItems_wf ih v

theorem itemsValues_length {items : List RLEItem} (h : itemsWF items) :
    ((itemsValues items).length : Int) = (items.map (fun it => it.rpt + 1)).sum := by
  induction items with
  | nil => rfl
  | cons a rest ih =>
    have ha : 0 ≤ a.rpt := h a (List.mem_cons_self a _)
    rw [itemsValues_cons, List.length_append, List.map_cons, List.sum_cons,
      ← ih (fun x hx => h x (List.mem_cons_of_mem a hx))]
    have hlen : (a.values.length : Int) = a.rpt + 1 := by
      rw [RLEItem.values, List.length_map, List.length_range]
      omega
    push_cast
    omega

theorem RLE.values_length {r : RLE} (h : itemsWF r.rle_items) :
    ((r.values.length : Int)) = r.num_values := by
  rw [RLE.num_values, ← itemsValues_length h]
  rfl

theorem create_rle_num_values (l : List Int) :
    (create_rle l).num_values = (l.length : Int) := by
  rw [← RLE.values_length (create_rle_wf l), create_rle_values]

theorem readRLEItem_write (hex_output : Bool) (it : RLEItem)
    (h : hex_output = true → 0 ≤ it.datum ∧ 0 ≤ it.stride) :
    readRLEItem (.mk "RLE"
      [("datum", fmtAttr hex_output it.datum),
       ("stride", fmtAttr hex_output it.stride),
       ("repeat", intToDecStr it.rpt)] []) = some it := by
  have hd : Element.getAttr (.mk "RLE"
      [("datum", fmtAttr hex_output it.datum),
       ("stride", fmtAttr hex_output it.stride),
       ("repeat", intToDecStr it.rpt)] []) "datum" = some (fmtAttr hex_output it.datum) := rfl
  have hs : Element.getAttr (.mk "RLE"
      [("datum", fmtAttr hex_output it.datum),
       ("stride", fmtAttr hex_output it.stride),
       ("repeat", intToDecStr it.rpt)] []) "stride" = some (fmtAttr hex_output it.stride) := rfl
  have hr : Element.getAttr (.mk "RLE"
      [("datum", fmtAttr hex_output it.datum),
       ("stride", fmtAttr hex_output it.stride),
       ("repeat", intToDecStr it.rpt)] []) "repeat" = some (intToDecStr it.rpt) := rfl
  have hconv : ∀ v : Int, (hex_output = true → 0 ≤ v) →
      rleConvertStr (fmtAttr hex_output v) = some v := by
    intro v hv
    cases hex_output with
    | false => rw [fmtAttr, if_neg (by decide)]; exact rleConvertStr_intToDecStr v
    | true => rw [fmtAttr, if_pos rfl]; exact rleConvertStr_hexAttrStr v (hv rfl)
  simp only [readRLEItem, hd, hs, hr, Option.some_bind,
    hconv it.datum (fun hh => (h hh).1), hconv it.stride (fun hh => (h hh).2),
    rleConvertStr_intToDecStr]

theorem mapOption_map {α β : Type} {f : β → Option α} {g : α → β} {l : List α}
    (h : ∀ x ∈ l, f (g x) = some x) : mapOption f (l.map g) = some l := by
  induction l with
  | nil => rfl
  | cons a l ih =>
    simp only [List.map_cons, mapOption]
    rw [h a (List.mem_cons_self a l), ih (fun x hx => h x (List.mem_cons_of_mem a hx))]

theorem xml_rle_write_childrenTagged (r : RLE) (element_name : String) (hex_output : Bool) :
    (xml_rle_write r element_name hex_output).childrenTagged "RLE"
      = r.rle_items.map (fun it =>
          Element.mk "RLE"
            [("datum", fmtAttr hex_output it.datum),
             ("stride", fmtAttr hex_output it.stride),
             ("repeat", intToDecStr it.rpt)] []) := by
  rw [xml_rle_write, Element.childrenTagged, Element.children]
  apply List.filter_eq_self.2
  intro a ha
  rcases List.mem_map.1 ha with ⟨it, _, rfl⟩
  simp [Element.tag]

/-- Writing any RLE whose `datum`/`stride` values survive the chosen
encoding, then reading it back, reproduces the identical item list (and
hence `num_values()` and `len()`); the `count` and `rle_len` checks pass
by construction. -/
theorem xml_rle_write_read (r : RLE) (element_name : String) (hex_output : Bool)
    (h : hex_output = true → r.hexOk) :
    xml_rle_read (xml_rle_write r element_name hex_output) = .ok r := by
  have hmo : mapOption readRLEItem
      ((xml_rle_write r element_name hex_output).childrenTagged "RLE") = some r.rle_items := by
    rw [xml_rle_write_childrenTagged]
    exact mapOption_map (fun it hit =>
      readRLEItem_write hex_output it (fun hh => h hh it hit))
  have hc : (xml_rle_write r element_name hex_output).getAttr "count"
      = some (intToDecStr r.num_values) := rfl
  have hl : (xml_rle_write r element_name hex_output).getAttr "rle_len"
      = some (natToDecStr r.len) := rfl
  rw [xml_rle_read, hmo, hc]
  simp only [Option.some_bind, parseDecIntStr_intToDecStr]
  have e1 : RLE.num_values ⟨r.rle_items⟩ = r.num_values := rfl
  rw [e1, if_neg (fun hcon => hcon rfl), hl]
  simp only [Option.some_bind, parseDecIntStr_natToDecStr]
  have e2 : ((r.len : Nat) : Int) = ((r.rle_items.length : Nat) : Int) := rfl
  rw [← e2, if_neg (fun hcon => hcon rfl)]

/-! ### Attribute mutation -/

theorem lookupAttr_setList (k v : String) (l : List (String × String)) :
    lookupAttr k (l.map (fun p => if p.1 = k then (k, v) else p))
      = if (lookupAttr k l).isSome then some v else none := by
  induction l with
  | nil => rfl
  | cons p l ih =>
    obtain ⟨k1, v1⟩ := p
    rw [List.map_cons]
    have hhead : (if (k1, v1).1 = k then (k, v) else (k1, v1))
        = (if k1 = k then (k, v) else (k1, v1)) := rfl
    rw [hhead]
    by_cases h : k1 = k
    · rw [if_pos h, lookupAttr, if_pos rfl, lookupAttr, if_pos h]
      rfl
    · rw [if_neg h, lookupAttr, if_neg h, lookupAttr, if_neg h, ih]

theorem lookupAttr_setList_other (k k2 v : String) (hne : k2 ≠ k)
    (l : List (String × String)) :
    lookupAttr k2 (l.map (fun p => if p.1 = k then (k, v) else p)) = lookupAttr k2 l := by
  induction l with
  | nil => rfl
  | cons p l ih =>
    obtain ⟨k1, v1⟩ := p
    rw [List.map_cons]
    have hhead : (if (k1, v1).1 = k then (k, v) else (k1, v1))
        = (if k1 = k then (k, v) else (k1, v1)) := rfl
    rw [hhead]
    by_cases h : k1 = k
    · rw [if_pos h]
      calc lookupAttr k2 ((k, v) :: l.map (fun p => if p.1 = k then (k, v) else p))
          = lookupAttr k2 (l.map (fun p => if p.1 = k then (k, v) else p)) := by
            rw [lookupAttr, if_neg (fun hc => hne hc.symm)]
        _ = lookupAttr k2 l := ih
        _ = lookupAttr k2 ((k1, v1) :: l) := by
            rw [lookupAttr, if_neg (fun hc => hne (hc.symm.trans h))]
    · rw [if_neg h, lookupAttr]
      by_cases h2 : k1 = k2
      · rw [if_pos h2, lookupAttr, if_pos h2]
      · rw [if_neg h2, ih, lookupAttr, if_neg h2]

theorem setAttr_getAttr (e : Element) (k v : String) (h : (e.getAttr k).isSome) :
    (e.setAttr k v).getAttr k = some v := by
  rw [Element.setAttr, Element.getAttr, Element.attrib, lookupAttr_setList]
  rw [Element.getAttr] at h
  rw [if_pos h]

theorem setAttr_getAttr_other (e : Element) (k k2 v : String) (hne : k2 ≠ k) :
    (e.setAttr k v).getAttr k2 = e.getAttr k2 := by
  rw [Element.setAttr, Element.getAttr, Element.attrib, lookupAttr_setList_other k k2 v hne]
  rfl

theorem setAttr_childrenTagged (e : Element) (k v t : String) :
    (e.setAttr k v).childrenTagged t = e.childrenTagged t := by
  rw [Element.setAttr, Element.childrenTagged, Element.children]
  rfl

theorem splitCommaChars_ne_nil (cs : List Char) : splitCommaChars cs ≠ [] := by
  induction cs with
  | nil => simp [splitCommaChars]
  | cons c rest ih =>
    rw [splitCommaChars]
    cases hs : splitCommaChars rest with
    | nil => exact absurd hs ih
    | cons p ps =>
      show (if c = ',' then [] :: p :: ps else (c :: p) :: ps) ≠ []
      by_cases h : c = ','
      · rw [if_pos h]; simp
      · rw [if_neg h]; simp

theorem splitCommaChars_no_comma {cs : List Char} (h : ∀ c ∈ cs, c ≠ ',') :
    splitCommaChars cs = [cs] := by
  induction cs with
  | nil => rfl
  | cons c rest ih =>
    rw [splitCommaChars, ih (fun x hx => h x (List.mem_cons_of_mem c hx))]
    show (if c = ',' then [[], rest] else [c :: rest]) = [c :: rest]
    rw [if_neg (h c (List.mem_cons_self c rest))]

theorem splitCommaChars_append {p : List Char} (hp : ∀ c ∈ p, c ≠ ',') (tail : List Char) :
    splitCommaChars (p ++ ',' :: tail) = p :: splitCommaChars tail := by
  induction p with
  | nil =>
    rw [List.nil_append, splitCommaChars]
    cases hs : splitCommaChars tail with
    | nil => exact absurd hs (splitCommaChars_ne_nil tail)
    | cons q qs =>
      show (if ',' = ',' then [] :: q :: qs else (',' :: q) :: qs) = [] :: q :: qs
      rw [if_pos rfl]
  | cons c p ih =>
    rw [List.cons_append, splitCommaChars,
      ih (fun x hx => hp x (List.mem_cons_of_mem c hx))]
    show (if c = ',' then [] :: p :: splitCommaChars tail else (c :: p) :: splitCommaChars tail)
        = (c :: p) :: splitCommaChars tail
    rw [if_neg (hp c (List.mem_cons_self c p))]

theorem splitCommaChars_joinCommaChars {ps : List (List Char)} (hne : ps ≠ [])
    (h : ∀ p ∈ ps, ∀ c ∈ p, c ≠ ',') :
    splitCommaChars (joinCommaChars ps) = ps := by
  induction ps with
  | nil => exact absurd rfl hne
  | cons p ps ih =>
    cases ps with
    | nil =>
      rw [joinCommaChars]
      exact splitCommaChars_no_comma (h p (List.mem_cons_self p []))
    | cons q ps2 =>
      rw [joinCommaChars, splitCommaChars_append (h p (List.mem_cons_self p _))]
      rw [ih (by simp) (fun x hx => h x (List.mem_cons_of_mem p hx))]

theorem intToDecChars_no_comma (i : Int) : ∀ c ∈ intToDecChars i, c ≠ ',' := by
  intro c hc
  rw [intToDecChars] at hc
  have hd : (∃ d, decCharVal c = some d) ∨ c = '-' := by
    by_cases h : i < 0
    · rw [if_pos h] at hc
      rcases List.mem_cons.1 hc with rfl | hc
      · exact Or.inr rfl
      · exact Or.inl (natToDecChars_all_digits _ c hc)
    · rw [if_neg h] at hc
      exact Or.inl (natToDecChars_all_digits _ c hc)
  rcases hd with ⟨d, hd⟩ | rfl
  · intro hcc
    subst hcc
    rw [show decCharVal _ = none from by decide] at hd
    exact Option.noConfusion hd
  · decide

theorem parseDimsStr_dimsAttrStr {dims : List Int} (h : dims ≠ []) :
    parseDimsStr (dimsAttrStr dims) = some dims := by
  rw [parseDimsStr, dimsAttrStr]
  have hsplit : splitCommaChars (joinCommaChars (dims.map intToDecChars))
      = dims.map intToDecChars := by
    apply splitCommaChars_joinCommaChars
    · intro hc
      exact h (by
        cases dims with
        | nil => rfl
        | cons a l => simp at hc)
    · intro p hp
      rcases List.mem_map.1 hp with ⟨i, _, rfl⟩
      exact intToDecChars_no_comma i
  show mapOption parseDecIntChars (splitCommaChars (joinCommaChars (dims.map intToDecChars)))
      = some dims
  rw [hsplit]
  exact mapOption_map (fun i _ => parseDecIntChars_intToDecChars i)

theorem zip3IFLR_map {α : Type} (f g h : α → Int) (l : List α) :
    zip3IFLR (l.map f) (l.map g) (l.map h)
      = l.map (fun x => ⟨f x, g x, h x⟩) := by
  induction l with
  | nil => rfl
  | cons a l ih => simp only [List.map_cons, zip3IFLR, ih]

theorem zip3IFLR_length (a b c : List Int) (hab : a.length = b.length)
    (hac : a.length = c.length) : (zip3IFLR a b c).length = a.length := by
  induction a generalizing b c with
  | nil =>
    cases b with
    | nil => cases c with
      | nil => rfl
      | cons c1 cs => simp at hac
    | cons b1 bs => simp at hab
  | cons a1 as2 ih =>
    cases b with
    | nil => simp at hab
    | cons b1 bs =>
      cases c with
      | nil => simp at hac
      | cons c1 cs =>
        rw [zip3IFLR]
        simp only [List.length_cons] at *
        rw [ih bs cs (by omega) (by omega)]

/-! ### Write-then-read helpers -/

theorem frame_array_to_XML_inv (fa : FrameArray) (data : List IFLRReference) (e : Element)
    (hwr : frame_array_to_XML fa data = some e) :
    ∃ c0 o0 channel_elems,
      fa.channels[0]? = some c0 ∧ c0.ident = .objectName o0 ∧
      mapOption frame_channel_to_XML fa.channels = some channel_elems ∧
      e = .mk "FrameArray"
        [("O", fa.ident.O.pyStr), ("C", fa.ident.C.pyStr), ("I", fa.ident.I),
         ("description", fa.description), ("x_axis", o0.I), ("x_units", c0.units)]
        [.mk "Channels" [("count", natToDecStr fa.channels.length)] channel_elems,
         .mk "IFLR" [("count", natToDecStr data.length)]
           [xml_rle_write (create_rle (data.map (fun v => v.frame_number)))
              "FrameNumbers" false,
            xml_rle_write (create_rle
                (data.map (fun v => v.logical_record_position.lrsh_position)))
              "LRSH" true,
            xml_rle_write (create_rle (data.map (fun v => v.x_axis)))
              "Xaxis" false]] := by
  rw [frame_array_to_XML] at hwr
  cases h0 : fa.channels[0]? with
  | none =>
    simp only [h0] at hwr
    exact Option.noConfusion hwr
  | some c0 =>
    simp only [h0] at hwr
    cases hident : c0.ident with
    | bytes b =>
      simp only [hident] at hwr
      exact Option.noConfusion hwr
    | objectName o0 =>
      simp only [hident] at hwr
      cases hmo : mapOption frame_channel_to_XML fa.channels with
      | none =>
        simp only [hmo] at hwr
        exact Option.noConfusion hwr
      | some channel_elems =>
        simp only [hmo, Option.some.injEq] at hwr
        exact ⟨c0, o0, channel_elems, rfl, hident, rfl, hwr.symm⟩

/-- Computation shape of `iflr_data_from_xml` on an element laid out the way
`frame_array_to_XML` writes it. -/
theorem iflr_data_from_xml_shape
    (faTag : String) (faAttrs chAttrs : List (String × String)) (chElems : List Element)
    (cnt : Nat) (rF rL rX : RLE) (hF hL hX : Bool)
    (hreadF : xml_rle_read (xml_rle_write rF "FrameNumbers" hF) = .ok rF)
    (hreadL : xml_rle_read (xml_rle_write rL "LRSH" hL) = .ok rL)
    (hreadX : xml_rle_read (xml_rle_write rX "Xaxis" hX) = .ok rX)
    (hcnt : (cnt : Int) = rL.num_values) (hLF : rL.num_values = rF.num_values)
    (hFX : rF.num_values = rX.num_values) :
    iflr_data_from_xml (.mk faTag faAttrs
      [.mk "Channels" chAttrs chElems,
       .mk "IFLR" [("count", natToDecStr cnt)]
         [xml_rle_write rF "FrameNumbers" hF,
          xml_rle_write rL "LRSH" hL,
          xml_rle_write rX "Xaxis" hX]])
      = .ok (zip3IFLR rL.values rF.values rX.values) := by
  have e1 : xml_single_element (Element.mk faTag faAttrs
      [.mk "Channels" chAttrs chElems,
       .mk "IFLR" [("count", natToDecStr cnt)]
         [xml_rle_write rF "FrameNumbers" hF,
          xml_rle_write rL "LRSH" hL,
          xml_rle_write rX "Xaxis" hX]]) "IFLR"
      = .ok (.mk "IFLR" [("count", natToDecStr cnt)]
         [xml_rle_write rF "FrameNumbers" hF,
          xml_rle_write rL "LRSH" hL,
          xml_rle_write rX "Xaxis" hX]) := rfl
  have e2 : xml_single_element (Element.mk "IFLR" [("count", natToDecStr cnt)]
         [xml_rle_write rF "FrameNumbers" hF,
          xml_rle_write rL "LRSH" hL,
          xml_rle_write rX "Xaxis" hX]) "LRSH" = .ok (xml_rle_write rL "LRSH" hL) := rfl
  have e3 : xml_single_element (Element.mk "IFLR" [("count", natToDecStr cnt)]
         [xml_rle_write rF "FrameNumbers" hF,
          xml_rle_write rL "LRSH" hL,
          xml_rle_write rX "Xaxis" hX]) "FrameNumbers"
      = .ok (xml_rle_write rF "FrameNumbers" hF) := rfl
  have e4 : xml_single_element (Element.mk "IFLR" [("count", natToDecStr cnt)]
         [xml_rle_write rF "FrameNumbers" hF,
          xml_rle_write rL "LRSH" hL,
          xml_rle_write rX "Xaxis" hX]) "Xaxis" = .ok (xml_rle_write rX "Xaxis" hX) := rfl
  have e5 : (Element.mk "IFLR" [("count", natToDecStr cnt)]
         [xml_rle_write rF "FrameNumbers" hF,
          xml_rle_write rL "LRSH" hL,
          xml_rle_write rX "Xaxis" hX]).getAttr "count" = some (natToDecStr cnt) := rfl
  simp only [iflr_data_from_xml, e1, e2, e3, e4, e5, hreadF, hreadL, hreadX,
    Option.some_bind, parseDecIntStr_natToDecStr]
  rw [if_pos ⟨hcnt, hLF, hFX⟩]

/-- Reading the side table back from a written `FrameArray` element:
whenever the LRSH positions survive the hexadecimal encoding, the three
blocks pass every check and the i-th entry receives exactly the i-th
original `(lrsh_position, frame_number, x_axis)` values. -/
theorem iflr_data_from_xml_write (fa : FrameArray) (data : List IFLRReference) (e : Element)
    (hwr : frame_array_to_XML fa data = some e)
    (hlrsh : (create_rle
      (data.map (fun v => v.logical_record_position.lrsh_position))).hexOk) :
    iflr_data_from_xml e
      = .ok (data.map (fun v =>
          ⟨v.logical_record_position.lrsh_position, v.frame_number, v.x_axis⟩)) := by
  rcases frame_array_to_XML_inv fa data e hwr with ⟨c0, o0, channel_elems, h0, hident, hmo, hE⟩
  subst hE
  rw [iflr_data_from_xml_shape "FrameArray" _ _ channel_elems data.length
    (create_rle (data.map (fun v => v.frame_number)))
    (create_rle (data.map (fun v => v.logical_record_position.lrsh_position)))
    (create_rle (data.map (fun v => v.x_axis))) false true false
    (xml_rle_write_read _ _ false (fun hh => absurd hh (by decide)))
    (xml_rle_write_read _ _ true (fun _ => hlrsh))
    (xml_rle_write_read _ _ false (fun hh => absurd hh (by decide)))
    (by rw [create_rle_num_values, List.length_map])
    (by rw [create_rle_num_values, create_rle_num_values, List.length_map, List.length_map])
    (by rw [create_rle_num_values, create_rle_num_values, List.length_map, List.length_map])]
  rw [create_rle_values, create_rle_values, create_rle_values, zip3IFLR_map]

theorem frame_channel_from_XML_write (c : FrameChannel) (o : ObjectName)
    (hident : c.ident = .objectName o) (hdims : c.dimensions ≠ []) (el : Element)
    (hwr : frame_channel_to_XML c = some el) :
    frame_channel_from_XML el
      = .ok ⟨.bytes o.I, c.long_name, c.rep_code, c.units, c.dimensions⟩ := by
  rw [frame_channel_to_XML, hident] at hwr
  have hE : el = Element.mk "Channel"
      [("O", o.O.pyStr), ("C", o.C.pyStr), ("I", o.I),
       ("long_name", c.long_name),
       ("rep_code", intToDecStr c.rep_code),
       ("units", c.units),
       ("dimensions", dimsAttrStr c.dimensions),
       ("count", intToDecStr c.count)] [] := (Option.some.inj hwr).symm
  subst hE
  have hI : (Element.mk "Channel"
      [("O", o.O.pyStr), ("C", o.C.pyStr), ("I", o.I),
       ("long_name", c.long_name), ("rep_code", intToDecStr c.rep_code),
       ("units", c.units), ("dimensions", dimsAttrStr c.dimensions),
       ("count", intToDecStr c.count)] []).getAttr "I" = some o.I := rfl
  have hln : (Element.mk "Channel"
      [("O", o.O.pyStr), ("C", o.C.pyStr), ("I", o.I),
       ("long_name", c.long_name), ("rep_code", intToDecStr c.rep_code),
       ("units", c.units), ("dimensions", dimsAttrStr c.dimensions),
       ("count", intToDecStr c.count)] []).getAttr "long_name" = some c.long_name := rfl
  have hrc : (Element.mk "Channel"
      [("O", o.O.pyStr), ("C", o.C.pyStr), ("I", o.I),
       ("long_name", c.long_name), ("rep_code", intToDecStr c.rep_code),
       ("units", c.units), ("dimensions", dimsAttrStr c.dimensions),
       ("count", intToDecStr c.count)] []).getAttr "rep_code"
      = some (intToDecStr c.rep_code) := rfl
  have hu : (Element.mk "Channel"
      [("O", o.O.pyStr), ("C", o.C.pyStr), ("I", o.I),
       ("long_name", c.long_name), ("rep_code", intToDecStr c.rep_code),
       ("units", c.units), ("dimensions", dimsAttrStr c.dimensions),
       ("count", intToDecStr c.count)] []).getAttr "units" = some c.units := rfl
  have hdim : (Element.mk "Channel"
      [("O", o.O.pyStr), ("C", o.C.pyStr), ("I", o.I),
       ("long_name", c.long_name), ("rep_code", intToDecStr c.rep_code),
       ("units", c.units), ("dimensions", dimsAttrStr c.dimensions),
       ("count", intToDecStr c.count)] []).getAttr "dimensions"
      = some (dimsAttrStr c.dimensions) := rfl
  rw [frame_channel_from_XML, if_neg (by simp [Element.tag])]
  simp only [hI, hln, hrc, hu, hdim, Option.some_bind,
    parseDecIntStr_intToDecStr, parseDimsStr_dimsAttrStr hdims]

theorem frame_channel_write_read (c : FrameChannel) (hdims : c.dimensions ≠ [])
    (el : Element) (hwr : frame_channel_to_XML c = some el) :
    frame_channel_from_XML el = .ok (channelAfterXML c) := by
  cases hident : c.ident with
  | bytes b =>
    rw [frame_channel_to_XML, hident] at hwr
    exact Option.noConfusion hwr
  | objectName o =>
    rw [frame_channel_from_XML_write c o hident hdims el hwr]
    rw [channelAfterXML, hident, ChannelIdent.identI]

theorem mapOption_mem {α β : Type} {f : α → Option β} {l : List α} {l2 : List β}
    (h : mapOption f l = some l2) : ∀ y ∈ l2, ∃ x ∈ l, f x = some y := by
  induction l generalizing l2 with
  | nil =>
    rw [mapOption] at h
    rw [← Option.some.inj h]
    intro y hy
    simp at hy
  | cons a l ih =>
    rw [mapOption] at h
    cases hfa : f a with
    | none => rw [hfa] at h; exact Option.noConfusion h
    | some b =>
      rw [hfa] at h
      cases hml : mapOption f l with
      | none => rw [hml] at h; exact Option.noConfusion h
      | some bs =>
        rw [hml] at h
        rw [← Option.some.inj h]
        intro y hy
        rcases List.mem_cons.1 hy with rfl | hy
        · exact ⟨a, List.mem_cons_self a l, hfa⟩
        · rcases ih hml y hy with ⟨x, hx, hfx⟩
          exact ⟨x, List.mem_cons_of_mem a hx, hfx⟩

theorem mapExcept_of_mapOption {α β γ : Type} {f : α → Option β}
    {g : β → Except XErr γ} {h : α → γ} {l : List α} {l2 : List β}
    (hmo : mapOption f l = some l2)
    (hcomp : ∀ x ∈ l, ∀ y, f x = some y → g y = .ok (h x)) :
    mapExcept g l2 = .ok (l.map h) := by
  induction l generalizing l2 with
  | nil =>
    rw [mapOption] at hmo
    rw [← Option.some.inj hmo]
    rfl
  | cons a l ih =>
    rw [mapOption] at hmo
    cases hfa : f a with
    | none => rw [hfa] at hmo; exact Option.noConfusion hmo
    | some b =>
      rw [hfa] at hmo
      cases hml : mapOption f l with
      | none => rw [hml] at hmo; exact Option.noConfusion hmo
      | some bs =>
        rw [hml] at hmo
        rw [← Option.some.inj hmo]
        rw [mapExcept, hcomp a (List.mem_cons_self a l) b hfa,
          ih hml (fun x hx => hcomp x (List.mem_cons_of_mem a hx)), List.map_cons]

theorem frame_channel_to_XML_tag (c : FrameChannel) (el : Element)
    (hwr : frame_channel_to_XML c = some el) : el.tag = "Channel" := by
  cases hident : c.ident with
  | bytes b =>
    rw [frame_channel_to_XML, hident] at hwr
    exact Option.noConfusion hwr
  | objectName o =>
    rw [frame_channel_to_XML, hident] at hwr
    rw [← Option.some.inj hwr]
    rfl

/-- Computation shape of `frame_array_from_XML` on an element laid out the
way `frame_array_to_XML` writes it. -/
theorem frame_array_from_XML_shape
    (o c i desc xax xun : String) (chAttrs : List (String × String))
    (chElems : List Element) (iflrAttrs : List (String × String))
    (iflrChildren : List Element) (channels : List FrameChannel) (iflr : List IFLRRead)
    (hch : mapExcept frame_channel_from_XML
        (chElems.filter (fun el => el.tag = "Channel")) = .ok channels)
    (hiflr : iflr_data_from_xml (.mk "FrameArray"
        [("O", o), ("C", c), ("I", i), ("description", desc),
         ("x_axis", xax), ("x_units", xun)]
        [.mk "Channels" chAttrs chElems, .mk "IFLR" iflrAttrs iflrChildren]) = .ok iflr) :
    frame_array_from_XML (.mk "FrameArray"
        [("O", o), ("C", c), ("I", i), ("description", desc),
         ("x_axis", xax), ("x_units", xun)]
        [.mk "Channels" chAttrs chElems, .mk "IFLR" iflrAttrs iflrChildren])
      = .ok (⟨⟨.str o, .str c, i⟩, desc, channels⟩, iflr) := by
  have hxon : xml_object_name (Element.mk "FrameArray"
      [("O", o), ("C", c), ("I", i), ("description", desc),
       ("x_axis", xax), ("x_units", xun)]
      [.mk "Channels" chAttrs chElems, .mk "IFLR" iflrAttrs iflrChildren])
      = some ⟨.str o, .str c, i⟩ := rfl
  have hdesc : (Element.mk "FrameArray"
      [("O", o), ("C", c), ("I", i), ("description", desc),
       ("x_axis", xax), ("x_units", xun)]
      [.mk "Channels" chAttrs chElems,
       .mk "IFLR" iflrAttrs iflrChildren]).getAttr "description" = some desc := rfl
  have hgc : (Element.mk "FrameArray"
      [("O", o), ("C", c), ("I", i), ("description", desc),
       ("x_axis", xax), ("x_units", xun)]
      [.mk "Channels" chAttrs chElems,
       .mk "IFLR" iflrAttrs iflrChildren]).grandchildrenTagged "Channels" "Channel"
      = chElems.filter (fun el => el.tag = "Channel") := by
    show ((([Element.mk "Channels" chAttrs chElems,
        Element.mk "IFLR" iflrAttrs iflrChildren].filter
          (fun el => el.tag = "Channels")).map
            (fun el => el.childrenTagged "Channel"))).flatten
      = chElems.filter (fun el => el.tag = "Channel")
    rw [show ([Element.mk "Channels" chAttrs chElems,
        Element.mk "IFLR" iflrAttrs iflrChildren].filter
          (fun el => el.tag = "Channels"))
        = [Element.mk "Channels" chAttrs chElems] from rfl]
    rw [List.map_cons, List.map_nil]
    rw [show (Element.mk "Channels" chAttrs chElems).childrenTagged "Channel"
        = chElems.filter (fun el => el.tag = "Channel") from rfl]
    simp
  rw [frame_array_from_XML, if_neg (by simp [Element.tag])]
  simp only [hxon, hdesc, hgc, hch, hiflr]

/-- Reading back a written `FrameArray` element: the parse succeeds, every
channel and the side table are recovered up to the identity degradations of
`frameArrayAfterXML`. -/
theorem frame_array_write_read (fa : FrameArray) (data : List IFLRReference) (e : Element)
    (hwr : frame_array_to_XML fa data = some e)
    (hdims : ∀ c ∈ fa.channels, c.dimensions ≠ [])
    (hlrsh : (create_rle
      (data.map (fun v => v.logical_record_position.lrsh_position))).hexOk) :
    frame_array_from_XML e
      = .ok (frameArrayAfterXML fa,
          data.map (fun v =>
            ⟨v.logical_record_position.lrsh_position, v.frame_number, v.x_axis⟩)) := by
  have hiflr := iflr_data_from_xml_write fa data e hwr hlrsh
  rcases frame_array_to_XML_inv fa data e hwr with ⟨c0, o0, channel_elems, h0, hident, hmo, hE⟩
  subst hE
  have htags : ∀ el ∈ channel_elems, el.tag = "Channel" := by
    intro el hel
    rcases mapOption_mem hmo el hel with ⟨ch, _, hch⟩
    exact frame_channel_to_XML_tag ch el hch
  have hfilter : channel_elems.filter (fun el => el.tag = "Channel") = channel_elems :=
    List.filter_eq_self.2 (fun el hel => by simp [htags el hel])
  have hch : mapExcept frame_channel_from_XML
      (channel_elems.filter (fun el => el.tag = "Channel"))
      = .ok (fa.channels.map channelAfterXML) := by
    rw [hfilter]
    exact mapExcept_of_mapOption hmo
      (fun ch hchm el hel => frame_channel_write_read ch (hdims ch hchm) el hel)
  rw [frame_array_from_XML_shape _ _ _ _ _ _ _ _ _ _
    (fa.channels.map channelAfterXML) _ hch hiflr]
  rfl

theorem zip3IFLR_get (a b c : List Int) : ∀ (j : Nat) (hj : j < (zip3IFLR a b c).length),
    (zip3IFLR a b c).get ⟨j, hj⟩ = ⟨a.getD j 0, b.getD j 0, c.getD j 0⟩ := by
  induction a generalizing b c with
  | nil => intro j hj; simp [zip3IFLR] at hj
  | cons a1 as2 ih =>
    intro j hj
    cases b with
    | nil => simp [zip3IFLR] at hj
    | cons b1 bs =>
      cases c with
      | nil => simp [zip3IFLR] at hj
      | cons c1 cs =>
        cases j with
        | zero => rfl
        | succ j2 =>
          have hj2 : j2 < (zip3IFLR as2 bs cs).length := by
            rw [show zip3IFLR (a1 :: as2) (b1 :: bs) (c1 :: cs)
                = ⟨a1, b1, c1⟩ :: zip3IFLR as2 bs cs from rfl, List.length_cons] at hj
            omega
          have hstep : (zip3IFLR (a1 :: as2) (b1 :: bs) (c1 :: cs)).get ⟨j2 + 1, hj⟩
              = (zip3IFLR as2 bs cs).get ⟨j2, hj2⟩ := rfl
          rw [hstep, ih bs cs j2 hj2]
          rfl

/-- C1: for every FrameArray XML node whose three RLE blocks pass the
length check, `iflr_data_from_xml` zips the expanded FrameNumbers, LRSH and
Xaxis blocks element-wise: the i-th entry's `frame_number` is the i-th
expanded FrameNumbers value, its LRSH-position component the i-th expanded
LRSH value, and its `x_axis` the i-th expanded Xaxis value. Hence writing a
side table with `frame_array_to_XML` and reading it back through
`iflr_data_from_xml` reproduces every `(frame_number, lrsh_position,
x_axis)` triple field-for-field. -/
theorem iflr_side_table_round_trip :
    (∀ (fan iflr eL eF eX : Element) (rL rF rX : RLE) (c : Int),
      xml_single_element fan "IFLR" = .ok iflr →
      xml_single_element iflr "LRSH" = .ok eL →
      xml_single_element iflr "FrameNumbers" = .ok eF →
      xml_single_element iflr "Xaxis" = .ok eX →
      xml_rle_read eL = .ok rL →
      xml_rle_read eF = .ok rF →
      xml_rle_read eX = .ok rX →
      (iflr.getAttr "count").bind parseDecIntStr = some c →
      c = rL.num_values → rL.num_values = rF.num_values → rF.num_values = rX.num_values →
      iflr_data_from_xml fan = .ok (zip3IFLR rL.values rF.values rX.values) ∧
      ∀ (j : Nat) (hj : j < (zip3IFLR rL.values rF.values rX.values).length),
        ((zip3IFLR rL.values rF.values rX.values).get ⟨j, hj⟩).frame_number
            = rF.values.getD j 0 ∧
        ((zip3IFLR rL.values rF.values rX.values).get ⟨j, hj⟩).logical_record_position
            = rL.values.getD j 0 ∧
        ((zip3IFLR rL.values rF.values rX.values).get ⟨j, hj⟩).x_axis
            = rX.values.getD j 0) ∧
    (∀ (fa : FrameArray) (data : List IFLRReference) (e : Element),
      frame_array_to_XML fa data = some e →
      (create_rle (data.map (fun v => v.logical_record_position.lrsh_position))).hexOk →
      iflr_data_from_xml e
        = .ok (data.map (fun v =>
            ⟨v.logical_record_position.lrsh_position, v.frame_number, v.x_axis⟩))) := by
  constructor
  · intro fan iflr eL eF eX rL rF rX c h1 h2 h3 h4 h5 h6 h7 h8 h9 h10 h11
    constructor
    · simp only [iflr_data_from_xml, h1, h2, h3, h4, h5, h6, h7, h8]
      rw [if_pos ⟨h9, h10, h11⟩]
    · intro j hj
      rw [zip3IFLR_get rL.values rF.values rX.values j hj]
      exact ⟨rfl, rfl, rfl⟩
  · exact iflr_data_from_xml_write

theorem iflr_side_table_round_trip_witness :
    iflr_data_from_xml iflrNodeW
      = .ok (zip3IFLR (RLE.values ⟨[⟨16, 8, 1⟩]⟩) (RLE.values ⟨[⟨1, 1, 1⟩]⟩)
          (RLE.values ⟨[⟨5, 5, 1⟩]⟩)) :=
  (iflr_side_table_round_trip.1 iflrNodeW
    (.mk "IFLR" [("count", "2")]
      [.mk "FrameNumbers" [("count", "2"), ("rle_len", "1")]
        [.mk "RLE" [("datum", "1"), ("stride", "1"), ("repeat", "1")] []],
       .mk "LRSH" [("count", "2"), ("rle_len", "1")]
        [.mk "RLE" [("datum", "0x10"), ("stride", "0x8"), ("repeat", "1")] []],
       .mk "Xaxis" [("count", "2"), ("rle_len", "1")]
        [.mk "RLE" [("datum", "5"), ("stride", "5"), ("repeat", "1")] []]])
    (.mk "LRSH" [("count", "2"), ("rle_len", "1")]
        [.mk "RLE" [("datum", "0x10"), ("stride", "0x8"), ("repeat", "1")] []])
    (.mk "FrameNumbers" [("count", "2"), ("rle_len", "1")]
        [.mk "RLE" [("datum", "1"), ("stride", "1"), ("repeat", "1")] []])
    (.mk "Xaxis" [("count", "2"), ("rle_len", "1")]
        [.mk "RLE" [("datum", "5"), ("stride", "5"), ("repeat", "1")] []])
    ⟨[⟨16, 8, 1⟩]⟩ ⟨[⟨1, 1, 1⟩]⟩ ⟨[⟨5, 5, 1⟩]⟩ 2
    rfl rfl rfl rfl rfl rfl rfl
    rfl (by decide) (by decide) (by decide)).1

/-- C2 counterexample: for a FrameArray whose identity is
`ObjectName(O=11, C=0, I='0B')` with one fully-specified channel, parsing
the XML written by `frame_array_to_XML` yields a FrameArray whose identity
triple is NOT structurally equal to the original (`O`/`C` come back as the
strings `'11'`/`'0'`, since `xml_object_name` never parses them to ints)
and whose channel identity triples are NOT recovered
(`frame_channel_from_XML` rebuilds the ident from the `I` byte-string
alone). -/
theorem frame_array_round_trip_cex :
    ∃ el fa2 iflr, frame_array_to_XML faC2 [] = some el ∧
      frame_array_from_XML el = .ok (fa2, iflr) ∧
      fa2.ident ≠ faC2.ident ∧
      fa2.channels.map (fun ch => ch.ident) ≠ faC2.channels.map (fun ch => ch.ident) := by
  cases hE : frame_array_to_XML faC2 [] with
  | none =>
    have hsome : (frame_array_to_XML faC2 []).isSome = true := by decide
    rw [hE] at hsome
    exact Bool.noConfusion hsome
  | some el =>
    refine ⟨el, frameArrayAfterXML faC2, [], rfl, ?_, by decide, by decide⟩
    have h := frame_array_write_read faC2 [] el hE (by decide) (by decide)
    simpa using h

/-- C2 (amended): parsing the XML written by `frame_array_to_XML` /
`frame_channel_to_XML` succeeds and yields a FrameArray whose identity has
the same `I` but whose `O` and `C` are the decimal string renderings of the
original integers, and whose channels are element-wise identical in
`long_name`, `rep_code`, `units` and `dimensions`, but carry only the `I`
byte-string of their original identity triple (the `O` and `C` of each
channel are not reconstructed). -/
theorem frame_array_round_trip_amended (fa : FrameArray) (data : List IFLRReference)
    (e : Element) (hwr : frame_array_to_XML fa data = some e)
    (hdims : ∀ c ∈ fa.channels, c.dimensions ≠ [])
    (hlrsh : (create_rle
      (data.map (fun v => v.logical_record_position.lrsh_position))).hexOk) :
    frame_array_from_XML e
      = .ok (frameArrayAfterXML fa,
          data.map (fun v =>
            ⟨v.logical_record_position.lrsh_position, v.frame_number, v.x_axis⟩)) ∧
    (frameArrayAfterXML fa).ident.I = fa.ident.I ∧
    (frameArrayAfterXML fa).ident.O = .str fa.ident.O.pyStr ∧
    (frameArrayAfterXML fa).ident.C = .str fa.ident.C.pyStr ∧
    (frameArrayAfterXML fa).description = fa.description ∧
    (frameArrayAfterXML fa).channels.map
        (fun ch => (ch.long_name, ch.rep_code, ch.units, ch.dimensions))
      = fa.channels.map (fun ch => (ch.long_name, ch.rep_code, ch.units, ch.dimensions)) := by
  refine ⟨frame_array_write_read fa data e hwr hdims hlrsh, rfl, rfl, rfl, rfl, ?_⟩
  rw [frameArrayAfterXML]
  rw [List.map_map]
  rfl

theorem frame_array_round_trip_amended_witness :
    ∃ el : Element, frame_array_to_XML faC2 [] = some el ∧
      frame_array_from_XML el = .ok (frameArrayAfterXML faC2, []) := by
  cases hE : frame_array_to_XML faC2 [] with
  | none =>
    have hsome : (frame_array_to_XML faC2 []).isSome = true := by decide
    rw [hE] at hsome
    exact Bool.noConfusion hsome
  | some el =>
    refine ⟨el, rfl, ?_⟩
    have h := (frame_array_round_trip_amended faC2 [] el hE (by decide) (by decide)).1
    simpa using h

/-- C5 counterexample: an RLE with the integer datum `-1`, serialized with
`hex_output=True`, does not survive the round trip: Python renders the
datum as `0x-1`, which `int(s, 16)` rejects, so `xml_rle_read` fails
(with a `ValueError`, not with the parsed RLE). -/
theorem xml_rle_round_trip_cex :
    xml_rle_read (xml_rle_write rleNegC5 "LRSH" true) = .error .badValue
      ∧ xml_rle_read (xml_rle_write rleNegC5 "LRSH" true) ≠ .ok rleNegC5 := by
  constructor
  · decide
  · decide

/-- C5 (amended): for every RLE whose items all have nonnegative integer
datum and stride, and for either value of the `hex_output` flag, parsing the
element emitted by `xml_rle_write` with `xml_rle_read` succeeds and yields
the identical ordered item list, `num_values()` and item count (with
`hex_output=False`, negative values also survive; the reader accepts both
decimal and `0x`-prefixed hexadecimal integer attributes). -/
theorem xml_rle_round_trip_amended (r : RLE) (element_name : String) (hex_output : Bool)
    (h : hex_output = true → r.hexOk) :
    xml_rle_read (xml_rle_write r element_name hex_output) = .ok r :=
  xml_rle_write_read r element_name hex_output h

theorem xml_rle_round_trip_amended_witness :
    xml_rle_read (xml_rle_write ⟨[⟨80, 8192, 6⟩, ⟨57416, 8192, 3⟩]⟩ "VisibleRecords" true)
      = .ok ⟨[⟨80, 8192, 6⟩, ⟨57416, 8192, 3⟩]⟩ :=
  xml_rle_round_trip_amended ⟨[⟨80, 8192, 6⟩, ⟨57416, 8192, 3⟩]⟩ "VisibleRecords" true
    (fun _ => by decide)

/-- C9: `frame_array_to_XML` reads `channels[0]` unconditionally for the
`x_axis`/`x_units` attributes, so for every zero-channel FrameArray the
write path fails (the lookup returns `none` and the error branch is taken),
while `frame_array_from_XML` accepts a FrameArray node with zero `Channel`
children. -/
theorem frame_array_to_XML_zero_channels :
    (∀ (fa : FrameArray) (data : List IFLRReference),
      fa.channels = [] → frame_array_to_XML fa data = none) ∧
    frame_array_from_XML faZeroNode = .ok (⟨⟨.str "11", .str "0", "0B"⟩, "", []⟩, []) := by
  constructor
  · intro fa data h
    rw [frame_array_to_XML, h]
    rfl
  · decide

theorem frame_array_to_XML_zero_channels_witness :
    frame_array_to_XML ⟨⟨.int 11, .int 0, "0B"⟩, "", []⟩ [] = none :=
  frame_array_to_XML_zero_channels.1 ⟨⟨.int 11, .int 0, "0B"⟩, "", []⟩ [] rfl

/-! ## Count-mismatch checks -/

/-- C3: on a block whose `RLE` children and `count`/`rle_len` attributes all
parse, `xml_rle_read` fails with the count-mismatch error exactly when the
declared `count` differs from the sum of `repeat+1` over the children or the
declared `rle_len` differs from the number of children; when both agree it
returns the parsed RLE; and overwriting only the `count` attribute of a
well-formed block with any other integer makes the read fail with the
count-mismatch error. -/
theorem xml_rle_read_count_checks (e : Element) (items : List RLEItem) (c rl : Int)
    (hitems : mapOption readRLEItem (e.childrenTagged "RLE") = some items)
    (hc : (e.getAttr "count").bind parseDecIntStr = some c)
    (hrl : (e.getAttr "rle_len").bind parseDecIntStr = some rl) :
    (xml_rle_read e = .error .countMismatch
        ↔ (c ≠ RLE.num_values ⟨items⟩ ∨ rl ≠ ((items.length : Nat) : Int))) ∧
    ((c = RLE.num_values ⟨items⟩ ∧ rl = ((items.length : Nat) : Int)) →
      xml_rle_read e = .ok ⟨items⟩) ∧
    (∀ c2 : Int, c2 ≠ RLE.num_values ⟨items⟩ →
      xml_rle_read (e.setAttr "count" (intToDecStr c2)) = .error .countMismatch) := by
  have heval : xml_rle_read e
      = (if c ≠ RLE.num_values ⟨items⟩ then Except.error XErr.countMismatch
        else if rl ≠ ((items.length : Nat) : Int) then Except.error XErr.countMismatch
        else .ok ⟨items⟩) := by
    simp only [xml_rle_read, hitems, hc, hrl]
  refine ⟨?_, ?_, ?_⟩
  · rw [heval]
    by_cases h1 : c = RLE.num_values ⟨items⟩
    · rw [if_neg (by simp [h1])]
      by_cases h2 : rl = ((items.length : Nat) : Int)
      · rw [if_neg (by simp [h2])]
        simp [h1, h2]
      · rw [if_pos h2]
        simp [h2]
    · rw [if_pos h1]
      simp [h1]
  · intro ⟨h1, h2⟩
    rw [heval, if_neg (by simp [h1]), if_neg (by simp [h2])]
  · intro c2 hc2
    have hchildren : (e.setAttr "count" (intToDecStr c2)).childrenTagged "RLE"
        = e.childrenTagged "RLE" := setAttr_childrenTagged e _ _ _
    have hsome : (e.getAttr "count").isSome = true := by
      cases ho : e.getAttr "count" with
      | none => rw [ho] at hc; exact Option.noConfusion hc
      | some s => rfl
    have hget := setAttr_getAttr e "count" (intToDecStr c2) hsome
    simp only [xml_rle_read, hchildren, hitems, hget, Option.some_bind,
      parseDecIntStr_intToDecStr]
    rw [if_pos hc2]

theorem xml_rle_read_count_checks_witness :
    xml_rle_read rleBlockW = .ok ⟨[⟨1, 1, 2⟩]⟩ ∧
    xml_rle_read (rleBlockW.setAttr "count" (intToDecStr 7)) = .error .countMismatch := by
  have h := xml_rle_read_count_checks rleBlockW [⟨1, 1, 2⟩] 3 1 rfl rfl rfl
  exact ⟨h.2.1 ⟨by decide, by decide⟩, h.2.2 7 (by decide)⟩

/-- C4: on a FrameArray node whose three RLE blocks each pass their own
count checks (and whose items carry nonnegative repeat counts),
`iflr_data_from_xml` fails with the mismatched-lengths error exactly when
the declared `count` and the three expanded value counts are not all equal;
when all four agree it returns a side table of exactly that many triples. -/
theorem iflr_data_from_xml_count_checks
    (fan iflr eL eF eX : Element) (rL rF rX : RLE) (c : Int)
    (h1 : xml_single_element fan "IFLR" = .ok iflr)
    (h2 : xml_single_element iflr "LRSH" = .ok eL)
    (h3 : xml_single_element iflr "FrameNumbers" = .ok eF)
    (h4 : xml_single_element iflr "Xaxis" = .ok eX)
    (h5 : xml_rle_read eL = .ok rL)
    (h6 : xml_rle_read eF = .ok rF)
    (h7 : xml_rle_read eX = .ok rX)
    (h8 : (iflr.getAttr "count").bind parseDecIntStr = some c)
    (h9 : itemsWF rL.rle_items) (h10 : itemsWF rF.rle_items) (h11 : itemsWF rX.rle_items) :
    (iflr_data_from_xml fan = .error .mismatchedCounts
      ↔ ¬(c = rL.num_values ∧ rL.num_values = rF.num_values
          ∧ rF.num_values = rX.num_values)) ∧
    ((c = rL.num_values ∧ rL.num_values = rF.num_values ∧ rF.num_values = rX.num_values) →
      ∃ l, iflr_data_from_xml fan = .ok l ∧ (l.length : Int) = c) := by
  have heval : iflr_data_from_xml fan
      = (if c = rL.num_values ∧ rL.num_values = rF.num_values
            ∧ rF.num_values = rX.num_values then
          .ok (zip3IFLR rL.values rF.values rX.values)
        else .error .mismatchedCounts) := by
    simp only [iflr_data_from_xml, h1, h2, h3, h4, h5, h6, h7, h8]
  constructor
  · rw [heval]
    by_cases hcond : c = rL.num_values ∧ rL.num_values = rF.num_values
        ∧ rF.num_values = rX.num_values
    · rw [if_pos hcond]
      simp [hcond]
    · rw [if_neg hcond]
      simp [hcond]
  · intro hcond
    rw [heval, if_pos hcond]
    refine ⟨zip3IFLR rL.values rF.values rX.values, rfl, ?_⟩
    have hL := RLE.values_length h9
    have hF := RLE.values_length h10
    have hX := RLE.values_length h11
    have hlen : (zip3IFLR rL.values rF.values rX.values).length = rL.values.length :=
      zip3IFLR_length _ _ _ (by omega) (by omega)
    rw [hlen, hL]
    omega

theorem iflr_data_from_xml_count_checks_witness :
    ∃ l, iflr_data_from_xml iflrNodeW = .ok l ∧ (l.length : Int) = 2 :=
  (iflr_data_from_xml_count_checks iflrNodeW
    (.mk "IFLR" [("count", "2")]
      [.mk "FrameNumbers" [("count", "2"), ("rle_len", "1")]
        [.mk "RLE" [("datum", "1"), ("stride", "1"), ("repeat", "1")] []],
       .mk "LRSH" [("count", "2"), ("rle_len", "1")]
        [.mk "RLE" [("datum", "0x10"), ("stride", "0x8"), ("repeat", "1")] []],
       .mk "Xaxis" [("count", "2"), ("rle_len", "1")]
        [.mk "RLE" [("datum", "5"), ("stride", "5"), ("repeat", "1")] []]])
    (.mk "LRSH" [("count", "2"), ("rle_len", "1")]
        [.mk "RLE" [("datum", "0x10"), ("stride", "0x8"), ("repeat", "1")] []])
    (.mk "FrameNumbers" [("count", "2"), ("rle_len", "1")]
        [.mk "RLE" [("datum", "1"), ("stride", "1"), ("repeat", "1")] []])
    (.mk "Xaxis" [("count", "2"), ("rle_len", "1")]
        [.mk "RLE" [("datum", "5"), ("stride", "5"), ("repeat", "1")] []])
    ⟨[⟨16, 8, 1⟩]⟩ ⟨[⟨1, 1, 1⟩]⟩ ⟨[⟨5, 5, 1⟩]⟩ 2
    rfl rfl rfl rfl rfl rfl rfl rfl
    (by decide) (by decide) (by decide)).2 ⟨by decide, by decide, by decide⟩

/-- C7: on a root whose unique `StorageUnitLabel` child carries all five
attributes with parseable integers, `read_storage_unit_label_from_xml`
raises an error exactly when the `dlis_version` differs from `V1.00`, the
`sequence_number` is not strictly positive, or the
`storage_unit_structure` differs from `RECORD`; when all three hold it
returns the label built from exactly the parsed sequence number, version,
maximum record length and storage-set identifier. -/
theorem read_storage_unit_label_checks (root sul_element : Element)
    (d : String) (n m : Int) (s ssi : String)
    (h1 : xml_single_element root "StorageUnitLabel" = .ok sul_element)
    (h2 : sul_element.getAttr "dlis_version" = some d)
    (h3 : (sul_element.getAttr "sequence_number").bind parseDecIntStr = some n)
    (h4 : (sul_element.getAttr "maximum_record_length").bind parseDecIntStr = some m)
    (h5 : sul_element.getAttr "storage_unit_structure" = some s)
    (h6 : sul_element.getAttr "storage_set_identifier" = some ssi) :
    ((∃ err, read_storage_unit_label_from_xml root = .error err)
        ↔ (d ≠ "V1.00" ∨ n ≤ 0 ∨ s ≠ "RECORD")) ∧
    ((d = "V1.00" ∧ 0 < n ∧ s = "RECORD") →
      read_storage_unit_label_from_xml root = .ok (create_storage_unit_label n d m ssi)) := by
  have heval : read_storage_unit_label_from_xml root
      = (if d ≠ "V1.00" then Except.error XErr.invalidSUL
        else if n ≤ 0 then Except.error XErr.invalidSUL
        else if s ≠ "RECORD" then Except.error XErr.invalidSUL
        else .ok (create_storage_unit_label n d m ssi)) := by
    simp only [read_storage_unit_label_from_xml, h1, h2, h3, h4, h5, h6]
  constructor
  · rw [heval]
    by_cases hd : d = "V1.00"
    · rw [if_neg (by simp [hd])]
      by_cases hn : n ≤ 0
      · rw [if_pos hn]
        simp [hn]
      · rw [if_neg hn]
        by_cases hs : s = "RECORD"
        · rw [if_neg (by simp [hs])]
          constructor
          · rintro ⟨err, hcon⟩
            exact Except.noConfusion hcon
          · intro hcon
            rcases hcon with hcon | hcon | hcon
            · exact absurd hd hcon
            · exact absurd hcon hn
            · exact absurd hs hcon
        · rw [if_pos hs]
          exact ⟨fun _ => Or.inr (Or.inr hs), fun _ => ⟨.invalidSUL, rfl⟩⟩
    · rw [if_pos hd]
      exact ⟨fun _ => Or.inl hd, fun _ => ⟨.invalidSUL, rfl⟩⟩
  · rintro ⟨hd, hn, hs⟩
    rw [heval, if_neg (by simp [hd]), if_neg (by omega), if_neg (by simp [hs])]

theorem read_storage_unit_label_checks_witness :
    read_storage_unit_label_from_xml sulRootW
      = .ok (create_storage_unit_label 1 "V1.00" 8192 "Default Storage Set") :=
  (read_storage_unit_label_checks sulRootW
    (.mk "StorageUnitLabel"
      [("sequence_number", "1"), ("dlis_version", "V1.00"),
       ("storage_unit_structure", "RECORD"), ("maximum_record_length", "8192"),
       ("storage_set_identifier", "Default Storage Set")] [])
    "V1.00" 1 8192 "RECORD" "Default Storage Set"
    rfl rfl rfl rfl rfl rfl).2 ⟨rfl, by decide, rfl⟩

/-- C6: `read_logical_file_from_xml` raises an error — never silently
accepts — whenever the `LogicalFile` element has fewer than two `EFLR`
children, or the first `EFLR` child's `set_type` is not `FILE-HEADER`, or
the second's is not `ORIGIN`; these checks precede any access to the
original binary file, so the same error results for every state of the
file oracle. -/
theorem read_logical_file_ordering (node : Element)
    (hbad : (node.childrenTagged "EFLR").length < 2
      ∨ ((node.childrenTagged "EFLR").getD 0 default).getAttr "set_type" ≠ some "FILE-HEADER"
      ∨ ((node.childrenTagged "EFLR").getD 1 default).getAttr "set_type" ≠ some "ORIGIN") :
    ∃ err, ∀ file_reads_ok : Bool,
      read_logical_file_from_xml node file_reads_ok = .error err := by
  by_cases htag : node.tag = "LogicalFile"
  · by_cases hlen : (node.childrenTagged "EFLR").length < 2
    · exact ⟨.malformedLogicalFile, fun b => by
        rw [read_logical_file_from_xml, if_neg (by simp [htag]), if_pos hlen]⟩
    · cases hattr0 : ((node.childrenTagged "EFLR").getD 0 default).getAttr "set_type" with
      | none =>
        exact ⟨.badValue, fun b => by
          rw [read_logical_file_from_xml, if_neg (by simp [htag]), if_neg hlen]
          simp only [hattr0]⟩
      | some st0 =>
        by_cases hst0 : st0 = "FILE-HEADER"
        · cases hattr1 : ((node.childrenTagged "EFLR").getD 1 default).getAttr "set_type" with
          | none =>
            exact ⟨.badValue, fun b => by
              rw [read_logical_file_from_xml, if_neg (by simp [htag]), if_neg hlen]
              simp only [hattr0, hattr1]
              rw [if_neg (by simp [hst0])]⟩
          | some st1 =>
            have hst1 : st1 ≠ "ORIGIN" := by
              rcases hbad with hb | hb | hb
              · exact absurd hb hlen
              · rw [hattr0, hst0] at hb
                exact absurd rfl hb
              · rw [hattr1] at hb
                intro hcon
                exact hb (by rw [hcon])
            exact ⟨.malformedLogicalFile, fun b => by
              rw [read_logical_file_from_xml, if_neg (by simp [htag]), if_neg hlen]
              simp only [hattr0, hattr1]
              rw [if_neg (by simp [hst0]), if_pos hst1]⟩
        · exact ⟨.malformedLogicalFile, fun b => by
            rw [read_logical_file_from_xml, if_neg (by simp [htag]), if_neg hlen]
            simp only [hattr0]
            rw [if_pos hst0]⟩
  · exact ⟨.assertFailed, fun b => by
      rw [read_logical_file_from_xml, if_pos htag]⟩

theorem read_logical_file_ordering_witness :
    ∃ err, ∀ file_reads_ok : Bool,
      read_logical_file_from_xml lfNodeC6 file_reads_ok = .error err :=
  read_logical_file_ordering lfNodeC6 (Or.inl (by decide))

theorem xml_single_element_error {e : Element} {t : String} {err : XErr}
    (h : xml_single_element e t = .error err) : err = .xpathCardinality := by
  rw [xml_single_element] at h
  cases hc : e.childrenTagged t with
  | nil =>
    rw [hc] at h
    injection h with h2
    exact h2.symm
  | cons x rest =>
    cases rest with
    | nil => rw [hc] at h; exact Except.noConfusion h
    | cons y rest2 =>
      rw [hc] at h
      injection h with h2
      exact h2.symm

theorem xml_rle_read_error {e : Element} {err : XErr}
    (h : xml_rle_read e = .error err) :
    err = .badValue ∨ err = .countMismatch := by
  rw [xml_rle_read] at h
  cases h1 : mapOption readRLEItem (e.childrenTagged "RLE") with
  | none =>
    simp only [h1] at h
    injection h with h2
    exact Or.inl h2.symm
  | some items =>
    simp only [h1] at h
    cases h2 : (e.getAttr "count").bind parseDecIntStr with
    | none =>
      simp only [h2] at h
      injection h with h3
      exact Or.inl h3.symm
    | some c =>
      simp only [h2] at h
      by_cases h3 : c ≠ RLE.num_values ⟨items⟩
      · rw [if_pos h3] at h
        injection h with h4
        exact Or.inr h4.symm
      · rw [if_neg h3] at h
        cases h4 : (e.getAttr "rle_len").bind parseDecIntStr with
        | none =>
          simp only [h4] at h
          injection h with h5
          exact Or.inl h5.symm
        | some rl =>
          simp only [h4] at h
          by_cases h5 : rl ≠ ((items.length : Nat) : Int)
          · rw [if_pos h5] at h
            injection h with h6
            exact Or.inr h6.symm
          · rw [if_neg h5] at h
            exact Except.noConfusion h

/-- C10: once the schema, source file, SUL, `LogicalFiles` lookup, declared
count and every `LogicalFile` child have been accepted,
`read_logical_index_from_xml` fails with the logical-file-count-mismatch
error exactly when the number of logical files actually read differs from
the declared `count` attribute. -/
theorem read_logical_index_count_check (root lfs : Element) (p : String)
    (sul : StorageUnitLabel) (c : Int) (files : List LogicalFileModel)
    (file_reads_ok : Bool)
    (htag : root.tag = "RP66V1FileIndex")
    (hsv : root.getAttr "schema_version" = some XML_SCHEMA_VERSION)
    (hpath : root.getAttr "path" = some p)
    (hsul : read_storage_unit_label_from_xml root = .ok sul)
    (hlfs : xml_single_element root "LogicalFiles" = .ok lfs)
    (hc : (lfs.getAttr "count").bind parseDecIntStr = some c)
    (hfiles : mapExcept (fun n => read_logical_file_from_xml n file_reads_ok)
      (lfs.childrenTagged "LogicalFile") = .ok files) :
    (read_logical_index_from_xml root true true file_reads_ok
        = .error .logicalFileCountMismatch)
      ↔ ((files.length : Int) ≠ c) := by
  have heval : read_logical_index_from_xml root true true file_reads_ok
      = (if ((files.length : Nat) : Int) ≠ c then Except.error XErr.logicalFileCountMismatch
        else
          match xml_single_element root "VisibleRecords" with
          | .error e => .error e
          | .ok vr_node =>
            match xml_rle_read vr_node with
            | .error e => .error e
            | .ok rle_vr => .ok ⟨sul, files, rle_vr.values⟩) := by
    rw [read_logical_index_from_xml, if_neg (by simp [htag])]
    simp only [hsv, hpath, hsul, hlfs, hc, hfiles]
    rw [if_neg (by simp [XML_SCHEMA_VERSION]), if_neg (by simp), if_neg (by simp)]
  rw [heval]
  by_cases hlen : ((files.length : Nat) : Int) ≠ c
  · rw [if_pos hlen]
    simp [hlen]
  · rw [if_neg hlen]
    constructor
    · intro hcon
      cases hvr : xml_single_element root "VisibleRecords" with
      | error e2 =>
        simp only [hvr] at hcon
        injection hcon with h2
        rw [xml_single_element_error hvr] at h2
        exact XErr.noConfusion h2
      | ok vr_node =>
        simp only [hvr] at hcon
        cases hrr : xml_rle_read vr_node with
        | error e3 =>
          simp only [hrr] at hcon
          injection hcon with h3
          rcases xml_rle_read_error hrr with h4 | h4 <;>
            (rw [h4] at h3; exact XErr.noConfusion h3)
        | ok rle_vr =>
          simp only [hrr] at hcon
          exact Except.noConfusion hcon
    · intro hcon
      exact absurd hcon hlen

theorem read_logical_index_count_check_witness :
    read_logical_index_from_xml indexRootW true true true
      ≠ .error .logicalFileCountMismatch := fun hcon =>
  absurd ((read_logical_index_count_check indexRootW
    (.mk "LogicalFiles" [("count", "0")] []) "a.dlis"
    (create_storage_unit_label 1 "V1.00" 8192 "Default") 0 [] true
    rfl rfl rfl rfl rfl rfl rfl).1 hcon) (by decide)

/-- C8 counterexample: an exception raised by `binary_file_type_from_path` —
called at line 586, before the `try` — propagates out of
`index_a_single_file` instead of being converted into an `IndexResult`; an
exception not derived from `Exception` raised inside the `try` body also
propagates; and in the sequential batch driver the first file's propagating
failure prevents the remaining files from being processed. -/
theorem index_a_single_file_cex :
    index_a_single_file "bad.dlis" "" (.raises true) false (.ok ()) (.ok 0) 0
      = .raises true ∧
    index_a_single_file "a.dlis" "" (.ok "RP66V1") false (.ok ()) (.raises false) 7
      = .raises false ∧
    index_dir_or_file [jobBftRaises, jobGood] = .raises true :=
  ⟨rfl, rfl, rfl⟩

/-- C8 (amended): any `Exception`-derived failure of the indexing body
inside the `try` block is caught and converted into an `IndexResult` with
`exception` true, a successful body yields `exception`/`ignored` false, any
non-RP66V1 input yields `ignored` true without consulting the
directory-creation or indexing oracles, and whenever every per-file call
returns a result (in particular when all failures are of the caught kind)
the sequential batch driver processes every file and keys its result map by
every input path. -/
theorem index_a_single_file_amended :
    (∀ (path_in path_out : String) (need_mkdir : Bool) (size_in : Int),
      index_a_single_file path_in path_out (.ok "RP66V1") need_mkdir (.ok ())
        (.raises true) size_in = .ok ⟨path_in, size_in, 0, true, false⟩) ∧
    (∀ (path_in path_out : String) (need_mkdir : Bool) (size_in index_size : Int),
      index_a_single_file path_in path_out (.ok "RP66V1") need_mkdir (.ok ())
        (.ok index_size) size_in = .ok ⟨path_in, size_in, index_size, false, false⟩) ∧
    (∀ (path_in path_out bin_file_type : String) (need_mkdir : Bool)
        (mkdirs : PyOutcome Unit) (indexing : PyOutcome Int) (size_in : Int),
      bin_file_type ≠ "RP66V1" →
      index_a_single_file path_in path_out (.ok bin_file_type) need_mkdir mkdirs
        indexing size_in = .ok ⟨path_in, 0, 0, false, true⟩) ∧
    (∀ jobs : List FileJob, (∀ j ∈ jobs, ∃ r, runJob j = .ok r) →
      ∃ rs, index_dir_or_file jobs = .ok rs
        ∧ rs.map Prod.fst = jobs.map FileJob.path_in) := by
  have hmk : ∀ (path_out : String) (need_mkdir : Bool),
      (if path_out ≠ "" ∧ need_mkdir = true then (PyOutcome.ok () : PyOutcome Unit)
        else .ok ()) = .ok () := fun _ _ => ite_self _
  refine ⟨?_, ?_, ?_, ?_⟩
  · intro path_in path_out need_mkdir size_in
    simp only [index_a_single_file, hmk]
    simp
  · intro path_in path_out need_mkdir size_in index_size
    simp only [index_a_single_file, hmk]
    simp
  · intro path_in path_out bin_file_type need_mkdir mkdirs indexing size_in h
    simp only [index_a_single_file]
    rw [if_neg h]
  · intro jobs h
    induction jobs with
    | nil => exact ⟨[], rfl, rfl⟩
    | cons j rest ih =>
      rcases h j (List.mem_cons_self j rest) with ⟨r, hr⟩
      rcases ih (fun x hx => h x (List.mem_cons_of_mem j hx)) with ⟨rs, hrs, hmap⟩
      refine ⟨(j.path_in, r) :: rs, ?_, ?_⟩
      · simp only [index_dir_or_file, hr, hrs]
      · simp only [List.map_cons, hmap]

theorem index_a_single_file_amended_witness :
    index_a_single_file "a.las" "out" (.ok "LAS") false (.ok ()) (.ok 0) 42
      = .ok ⟨"a.las", 0, 0, false, true⟩ ∧
    ∃ rs, index_dir_or_file [jobGood] = .ok rs
      ∧ rs.map Prod.fst = [jobGood].map FileJob.path_in :=
  ⟨index_a_single_file_amended.2.2.1 "a.las" "out" "LAS" false (.ok ()) (.ok 0) 42
    (by decide),
   index_a_single_file_amended.2.2.2 [jobGood]
    (fun j hj => by
      rw [List.mem_singleton] at hj
      subst hj
      exact ⟨⟨"good.dlis", 500, 100, false, false⟩, by decide⟩)⟩
